import Mathlib

/-!
Argo CD repo-server: start-up configuration, health check, failure tracker and
the repocreds wire format.

A shallow embedding of

* `cmd/argocd-repo-server/commands/argocd_repo_server.go` (the pause-generation
  getters, the init constants handed to the service, the healthz handler),
* `reposerver/server.go` (`NewServer`, `CreateGRPC`),
* `pkg/apiclient/repocreds/repocreds.pb.go` (`Marshal`, `Size`, `Unmarshal`,
  `encodeVarintRepocreds`, `sovRepocreds`, `skipRepocreds`),
* `test/manifests_test.go` (the function `TestBuildManifests` walks the
  manifests tree with),

followed by the theorems proved about them.

Conventions.  Go `int` is 64 bits wide.  A `uint64` is a `Nat` reduced modulo
`2^64`; an `int` that may overflow is an `Int` reduced by `wrapInt`.  A byte is
a `Fin 256`; a Go `string` and a `[]byte` are lists of bytes (a nil slice is the
empty list).  A run-time panic (index or slice out of range) and an exhausted
fuel budget are explicit outcomes, never silently dropped.
-/

namespace ArgoCD

/-! ## Part 1: definitions -/

/-! ### Start-up configuration (`argocd_repo_server.go`) -/

/-- The constant `math.MaxInt32`. -/
def MaxInt32 : Int := 2147483647

/-- The constant `defaultPauseGenerationAfterFailedGenerationAttempts`. -/
def defaultPauseGenerationAfterFailedGenerationAttempts : Int := 3

/-- The constant `defaultPauseGenerationOnFailureForMinutes`. -/
def defaultPauseGenerationOnFailureForMinutes : Int := 60

/-- The constant `defaultPauseGenerationOnFailureForRequests`. -/
def defaultPauseGenerationOnFailureForRequests : Int := 0

/-- The names of the three environment variables, constants of package `common`
that the getters refer to (`common.EnvPauseGenerationAfterFailedAttempts`,
`common.EnvPauseGenerationMinutes`, `common.EnvPauseGenerationRequests`).  The
package is outside the sources at hand, so the names are a parameter. -/
structure Common where
  EnvPauseGenerationAfterFailedAttempts : String
  EnvPauseGenerationMinutes : String
  EnvPauseGenerationRequests : String

/-- The process environment: `none` for a variable that is not set. -/
abbrev Environ := String → Option String

/-- Go `os.Getenv`: the value of the variable, the empty string when unset. -/
def Getenv (env : Environ) (name : String) : String :=
  (env name).getD ""

/-- Value of a string of decimal digits, `none` when a character is not a
digit.  The accumulator carries the value read so far. -/
def digitsValue : List Char → Nat → Option Nat
  | [], acc => some acc
  | c :: cs, acc =>
    if c.isDigit then digitsValue cs (acc * 10 + (c.toNat - 48)) else none

/-- The integer a string denotes in decimal: an optional sign followed by at
least one digit, nothing else.  No bound on the magnitude. -/
def parseDecimal (s : String) : Option Int :=
  match s.toList with
  | [] => none
  | '+' :: ds => if ds = [] then none else (digitsValue ds 0).map Int.ofNat
  | '-' :: ds => if ds = [] then none else (digitsValue ds 0).map (fun n => - Int.ofNat n)
  | ds => (digitsValue ds 0).map Int.ofNat

/-- Go `strconv.Atoi` on a 64-bit platform: the decimal integer, an error
(`none`) for a syntax error or a value outside the `int` range. -/
def Atoi (s : String) : Option Int :=
  match parseDecimal s with
  | none => none
  | some n => if -9223372036854775808 ≤ n ∧ n ≤ 9223372036854775807 then some n else none

/-- Modelled from the spec: `env.ParseNumFromEnv` (package `util/env`) is called
by the three getters but is not among the sources.  The configuration surface
gives each value a default and lets `0` disable a dimension; the call sites pass
the variable name, the default, the minimum and the maximum.  The helper returns
the default when the variable is unset or empty, when its value is not an
integer, and when the integer lies outside `min..max`; otherwise the integer. -/
def ParseNumFromEnv (env : Environ) (name : String) (defaultValue min max : Int) : Int :=
  let str := Getenv env name
  if str = "" then defaultValue
  else match Atoi str with
    | none => defaultValue
    | some num =>
      if num < min then defaultValue
      else if num > max then defaultValue
      else num

/-- Go `getPauseGenerationAfterFailedGenerationAttempts`. -/
def getPauseGenerationAfterFailedGenerationAttempts (common : Common) (env : Environ) : Int :=
  ParseNumFromEnv env common.EnvPauseGenerationAfterFailedAttempts
    defaultPauseGenerationAfterFailedGenerationAttempts 0 MaxInt32

/-- Go `getPauseGenerationOnFailureForMinutes`. -/
def getPauseGenerationOnFailureForMinutes (common : Common) (env : Environ) : Int :=
  ParseNumFromEnv env common.EnvPauseGenerationMinutes
    defaultPauseGenerationOnFailureForMinutes 0 MaxInt32

/-- Go `getPauseGenerationOnFailureForRequests`. -/
def getPauseGenerationOnFailureForRequests (common : Common) (env : Environ) : Int :=
  ParseNumFromEnv env common.EnvPauseGenerationRequests
    defaultPauseGenerationOnFailureForRequests 0 MaxInt32

/-- Go `repository.RepoServerInitConstants`, with the four fields that
`NewCommand` fills in.  `ParallelismLimit` is an `int64`, the others are `int`. -/
structure RepoServerInitConstants where
  ParallelismLimit : Int
  PauseGenerationAfterFailedGenerationAttempts : Int
  PauseGenerationOnFailureForMinutes : Int
  PauseGenerationOnFailureForRequests : Int
  deriving DecidableEq, Repr

/-- The flag variables of `NewCommand` that the claims are about, each with the
default its `Flags().…Var` registration gives it. -/
structure Flags where
  parallelismLimit : Int := 0
  listenPort : Int
  deriving DecidableEq, Repr

/-- The `repository.RepoServerInitConstants` literal that the `RunE` closure of
`NewCommand` builds and hands to `reposerver.NewServer`. -/
def NewCommand.initConstants (common : Common) (env : Environ) (flags : Flags) :
    RepoServerInitConstants :=
  { ParallelismLimit := flags.parallelismLimit
    PauseGenerationAfterFailedGenerationAttempts :=
      getPauseGenerationAfterFailedGenerationAttempts common env
    PauseGenerationOnFailureForMinutes := getPauseGenerationOnFailureForMinutes common env
    PauseGenerationOnFailureForRequests := getPauseGenerationOnFailureForRequests common env }

/-! ### The server object (`reposerver/server.go`) -/

/-- Go `ArgoCDRepoServer`.  The metrics server, the cache and the gRPC server
options are values of types from outside the sources, hence parameters. -/
structure ArgoCDRepoServer (Metrics Cache Opts : Type) where
  metricsServer : Metrics
  cache : Cache
  opts : Opts
  initConstants : RepoServerInitConstants

/-- Go `NewServer`.  `certResult` is what `tlsutil.GenerateX509KeyPair` returns
(an error aborts construction); `mkOpts` builds the server options from the
certificate.  The init constants are stored as received. -/
def NewServer {Metrics Cache Opts Cert Err : Type} (certResult : Except Err Cert)
    (mkOpts : Cert → Opts) (metricsServer : Metrics) (cache : Cache)
    (initConstants : RepoServerInitConstants) :
    Except Err (ArgoCDRepoServer Metrics Cache Opts) :=
  match certResult with
  | .error err => .error err
  | .ok cert =>
    .ok { metricsServer := metricsServer
          cache := cache
          initConstants := initConstants
          opts := mkOpts cert }

/-- The gRPC server that `CreateGRPC` assembles: the options it was created
with and the manifest service registered on it. -/
structure GrpcServer (Opts Service : Type) where
  opts : Opts
  manifestService : Service

/-- Go `CreateGRPC`.  `NewService` stands for `repository.NewService`, which is
outside the sources; it is applied to the server's metrics server, cache and
init constants. -/
def CreateGRPC {Metrics Cache Opts Service : Type}
    (NewService : Metrics → Cache → RepoServerInitConstants → Service)
    (a : ArgoCDRepoServer Metrics Cache Opts) : GrpcServer Opts Service :=
  { opts := a.opts
    manifestService := NewService a.metricsServer a.cache a.initConstants }

/-! ### The health check (`argocd_repo_server.go`, the `healthz` handler) -/

/-- Modelled from the spec: the per-target `FailureState` of the data model (the
consecutive-failure counter, the timestamp of the first failure of the current
run, and the pause expiry as a wall-clock deadline and a remaining-request
budget).  `paused` records that the threshold has been reached.  Times are in
seconds. -/
structure FailureState where
  counter : Int
  firstFailure : Int
  paused : Bool
  deadline : Int
  budget : Int
  deriving DecidableEq, Repr

/-- Modelled from the spec: the Open state of the failure tracker (section 4.3).
A target is Open when its threshold has been reached and the pause is not
exhausted; a dimension configured as `0` is disabled, and the pause is exhausted
(Half-closed) as soon as an enabled dimension has run out: the deadline has
passed or the request budget is used up. -/
def breakerOpen (c : RepoServerInitConstants) (fs : FailureState) (now : Int) : Bool :=
  fs.paused
    && (decide (c.PauseGenerationOnFailureForMinutes > 0)
        || decide (c.PauseGenerationOnFailureForRequests > 0))
    && (decide (c.PauseGenerationOnFailureForMinutes > 0 → now < fs.deadline))
    && (decide (c.PauseGenerationOnFailureForRequests > 0 → fs.budget > 0))

/-- Modelled from the spec: recording a failed generation (section 4.3, Closed
and Half-closed on failure).  The counter is incremented; once it has reached
the threshold the target is paused with a window computed from the
configuration, starting now. -/
def recordFailure (c : RepoServerInitConstants) (old : Option FailureState) (now : Int) :
    FailureState :=
  let counter := (match old with | none => 0 | some fs => fs.counter) + 1
  let firstFailure := match old with | none => now | some fs => fs.firstFailure
  if counter ≥ c.PauseGenerationAfterFailedGenerationAttempts then
    { counter := counter, firstFailure := firstFailure, paused := true
      deadline := now + 60 * c.PauseGenerationOnFailureForMinutes
      budget := c.PauseGenerationOnFailureForRequests }
  else
    { counter := counter, firstFailure := firstFailure, paused := false
      deadline := 0, budget := 0 }

/-- Modelled from the spec: a `CacheEntry` holding a produced manifest set, its
creation time and its time-to-live. -/
structure CacheEntry (Manifests : Type) where
  manifests : Manifests
  created : Int
  ttl : Int

/-- Modelled from the spec: the state the orchestrator owns, the result cache
keyed by fingerprint and the failure tracker keyed by target. -/
structure OrchestratorState (Manifests : Type) where
  cache : Nat → Option (CacheEntry Manifests)
  failures : Nat → Option FailureState

/-- Modelled from the spec: the error taxonomy of section 7 as far as a
sequential caller can observe it. -/
inductive GenerateError (RenderErr : Type) where
  | BreakerOpen
  | RenderFailure (err : RenderErr)
  deriving DecidableEq, Repr

/-- The result of one `generate` call: the outcome, how many times the
rendering collaborator was invoked, and the state afterwards. -/
structure GenerateResult (Manifests RenderErr : Type) where
  outcome : Except (GenerateError RenderErr) Manifests
  invocations : Nat
  state : OrchestratorState Manifests

/-- Modelled from the spec: `Result Cache.get` (section 4.2), absent when there
is no entry or the entry's time-to-live has elapsed. -/
def cacheGet {Manifests : Type} (st : OrchestratorState Manifests) (fp : Nat) (now : Int) :
    Option (CacheEntry Manifests) :=
  match st.cache fp with
  | none => none
  | some e => if now < e.created + e.ttl then some e else none

/-- Modelled from the spec: `generate` of the Generation Orchestrator (section
4.6) for one caller at a time, so that the single-flight slot and the
concurrency permit are taken and released without waiting.  Step 2 is the cache
lookup, step 3 the failure tracker, step 4 the call of the rendering
collaborator `render` and the recording of its outcome (4d, 4e); the optional
caching of a failure in 4e is left out.  A request rejected while Open consumes
one unit of the request budget when that dimension is enabled. -/
def generate {Request Manifests RenderErr : Type} (c : RepoServerInitConstants)
    (cacheTTL : Int) (fingerprint target : Request → Nat)
    (render : Request → Except RenderErr Manifests) (now : Int) (req : Request)
    (st : OrchestratorState Manifests) : GenerateResult Manifests RenderErr :=
  match cacheGet st (fingerprint req) now with
  | some e => { outcome := .ok e.manifests, invocations := 0, state := st }
  | none =>
    match (st.failures (target req)).filter (fun fs => breakerOpen c fs now) with
    | some fs =>
      { outcome := .error .BreakerOpen
        invocations := 0
        state :=
          { st with
            failures := fun t =>
              if t = target req then
                some (if c.PauseGenerationOnFailureForRequests > 0
                      then { fs with budget := fs.budget - 1 } else fs)
              else st.failures t } }
    | none =>
      match render req with
      | .ok ms =>
        { outcome := .ok ms
          invocations := 1
          state :=
            { cache := fun fp =>
                if fp = fingerprint req then
                  some { manifests := ms, created := now, ttl := cacheTTL }
                else st.cache fp
              failures := fun t => if t = target req then none else st.failures t } }
      | .error err =>
        { outcome := .error (.RenderFailure err)
          invocations := 1
          state :=
            { st with
              failures := fun t =>
                if t = target req then some (recordFailure c (st.failures t) now)
                else st.failures t } }

/-- Modelled from the spec: the state of a freshly started process, with an
empty cache and no failure recorded (the state is not persistent). -/
def OrchestratorState.fresh {Manifests : Type} : OrchestratorState Manifests :=
  { cache := fun _ => none, failures := fun _ => none }

/-! ### The repocreds wire format (`repocreds.pb.go`): machine integers -/

/-- A byte. -/
abbrev Byte := Fin 256

/-- Go conversion `uint8(v)` of an unsigned value: the low eight bits. -/
def toUint8 (v : Nat) : Byte := Fin.ofNat v

/-- Go conversion `int(x)` of a `uint64` bit pattern: the two's complement
reading of the 64 bits. -/
def toInt64 (x : Nat) : Int :=
  if x % 18446744073709551616 < 9223372036854775808 then (x % 18446744073709551616 : Nat)
  else ((x % 18446744073709551616 : Nat) : Int) - 18446744073709551616

/-- Go conversion `int32(x)` of a `uint64`: the two's complement reading of
the low 32 bits. -/
def toInt32 (x : Nat) : Int :=
  if x % 4294967296 < 2147483648 then (x % 4294967296 : Nat)
  else ((x % 4294967296 : Nat) : Int) - 4294967296

/-- The result of an `int` addition: the sum reduced to 64 bits, two's
complement. -/
def wrapInt (x : Int) : Int :=
  (x + 9223372036854775808) % 18446744073709551616 - 9223372036854775808

/-- The errors the generated code returns: the three package variables,
`io.ErrUnexpectedEOF`, and the four `fmt.Errorf` messages with their
arguments. -/
inductive ProtoError where
  | ErrInvalidLengthRepocreds
  | ErrIntOverflowRepocreds
  | ErrUnexpectedEndOfGroupRepocreds
  | ErrUnexpectedEOF
  | endGroupForNonGroup (message : String)
  | illegalTag (message : String) (fieldNum : Int) (wire : Nat)
  | wrongWireType (wireType : Nat) (field : String)
  | illegalWireType (wireType : Nat)
  | nested (description : String)
  deriving DecidableEq, Repr

/-- How a run of the generated code can end other than normally: with a
returned error, with a run-time panic (an index or a slice bound out of range),
or because the fuel given to a loop of the embedding ran out. -/
inductive Failure where
  | error (e : ProtoError)
  | panic
  | outOfFuel
  deriving DecidableEq, Repr

/-- Tells a returned error from a panic and from exhausted fuel. -/
def Failure.isError : Failure → Bool
  | .error _ => true
  | .panic => false
  | .outOfFuel => false

/-- Go slice expression `dAtA[lo:hi]`, which panics unless
`0 <= lo <= hi <= len(dAtA)`. -/
def slice (dAtA : List Byte) (lo hi : Int) : Except Failure (List Byte) :=
  if 0 ≤ lo ∧ lo ≤ hi ∧ hi ≤ dAtA.length then
    .ok ((dAtA.take hi.toNat).drop lo.toNat)
  else .error .panic

/-- Go `copy(dAtA[i:], src)`: panics unless `0 <= i <= len(dAtA)`, and copies
as many bytes of `src` as fit. -/
def copyAt (dAtA : List Byte) (i : Int) (src : List Byte) : Except Failure (List Byte) :=
  if 0 ≤ i ∧ i ≤ dAtA.length then
    let k := min (dAtA.length - i.toNat) src.length
    .ok (dAtA.take i.toNat ++ src.take k ++ dAtA.drop (i.toNat + k))
  else .error .panic

/-- Go assignment `dAtA[i] = b`: panics unless `0 <= i < len(dAtA)`. -/
def setAt (dAtA : List Byte) (i : Int) (b : Byte) : Except Failure (List Byte) :=
  if 0 ≤ i ∧ i < dAtA.length then .ok (dAtA.set i.toNat b) else .error .panic

/-- Counts the bits of `x`, by halving at most `fuel` times. -/
def lenBits : Nat → Nat → Nat
  | 0, _ => 0
  | fuel + 1, x => if x = 0 then 0 else lenBits fuel (x / 2) + 1

/-- Go `math/bits.Len64`: the number of bits needed to represent `x`, `0` for
`x = 0`. -/
def Len64 (x : Nat) : Nat := lenBits 64 (x % 18446744073709551616)

/-- Go `sovRepocreds`. -/
def sovRepocreds (x : Nat) : Nat := (Len64 (x ||| 1) + 6) / 7

/-! ### Encoding -/

/-- The `for v >= 1<<7` loop of `encodeVarintRepocreds` and the store after it.
A `uint64` needs at most ten rounds. -/
def encodeVarintLoop : Nat → List Byte → Int → Nat → Except Failure (List Byte)
  | 0, _, _, _ => .error .outOfFuel
  | fuel + 1, dAtA, offset, v =>
    if v ≥ 1 <<< 7 then
      match setAt dAtA offset (toUint8 (v &&& 0x7f ||| 0x80)) with
      | .error e => .error e
      | .ok dAtA => encodeVarintLoop fuel dAtA (offset + 1) (v >>> 7)
    else setAt dAtA offset (toUint8 v)

/-- Go `encodeVarintRepocreds`: the buffer after the writes, and `base`. -/
def encodeVarintRepocreds (dAtA : List Byte) (offset : Int) (v : Nat) :
    Except Failure (List Byte × Int) :=
  let offset := offset - sovRepocreds v
  let base := offset
  match encodeVarintLoop 10 dAtA offset v with
  | .error e => .error e
  | .ok dAtA => .ok (dAtA, base)

/-- The two messages with the single field `Url` (field 1, bytes),
`RepoCredsQuery` and `RepoCredsDeleteRequest`: their declarations and their
generated methods differ in the type name only. -/
structure UrlMessage where
  Url : List Byte
  XXX_unrecognized : List Byte
  deriving DecidableEq, Repr

/-- Go `RepoCredsQuery`. -/
abbrev RepoCredsQuery := UrlMessage

/-- Go `RepoCredsDeleteRequest`. -/
abbrev RepoCredsDeleteRequest := UrlMessage

/-- Go `RepoCredsResponse`. -/
structure RepoCredsResponse where
  XXX_unrecognized : List Byte
  deriving DecidableEq, Repr

/-- Go `(*RepoCredsQuery).Size` and `(*RepoCredsDeleteRequest).Size`. -/
def UrlMessage.Size (m : UrlMessage) : Nat :=
  let l := m.Url.length
  let n := if l > 0 then 1 + l + sovRepocreds (l % 18446744073709551616) else 0
  if m.XXX_unrecognized ≠ [] then n + m.XXX_unrecognized.length else n

/-- Go `(*RepoCredsResponse).Size`. -/
def RepoCredsResponse.Size (m : RepoCredsResponse) : Nat :=
  if m.XXX_unrecognized ≠ [] then m.XXX_unrecognized.length else 0

/-- The statement `if m.XXX_unrecognized != nil { i -= len(...); copy(dAtA[i:], ...) }`
that opens every `MarshalToSizedBuffer`. -/
def putUnrecognized (unrecognized : List Byte) (dAtA : List Byte) (i : Int) :
    Except Failure (List Byte × Int) :=
  if unrecognized ≠ [] then
    let i := i - unrecognized.length
    match copyAt dAtA i unrecognized with
    | .error e => .error e
    | .ok dAtA => .ok (dAtA, i)
  else .ok (dAtA, i)

/-- Go `(*RepoCredsQuery).MarshalToSizedBuffer` and
`(*RepoCredsDeleteRequest).MarshalToSizedBuffer`: the buffer after the writes
and the returned count `len(dAtA) - i`. -/
def UrlMessage.MarshalToSizedBuffer (m : UrlMessage) (dAtA : List Byte) :
    Except Failure (List Byte × Int) :=
  let i : Int := dAtA.length
  match putUnrecognized m.XXX_unrecognized dAtA i with
  | .error e => .error e
  | .ok (dAtA, i) =>
    if m.Url.length > 0 then
      let i := i - m.Url.length
      match copyAt dAtA i m.Url with
      | .error e => .error e
      | .ok dAtA =>
        match encodeVarintRepocreds dAtA i (m.Url.length % 18446744073709551616) with
        | .error e => .error e
        | .ok (dAtA, i) =>
          let i := i - 1
          match setAt dAtA i 0xa with
          | .error e => .error e
          | .ok dAtA => .ok (dAtA, dAtA.length - i)
    else .ok (dAtA, dAtA.length - i)

/-- Go `(*RepoCredsResponse).MarshalToSizedBuffer`. -/
def RepoCredsResponse.MarshalToSizedBuffer (m : RepoCredsResponse) (dAtA : List Byte) :
    Except Failure (List Byte × Int) :=
  let i : Int := dAtA.length
  match putUnrecognized m.XXX_unrecognized dAtA i with
  | .error e => .error e
  | .ok (dAtA, i) => .ok (dAtA, dAtA.length - i)

/-- The body shared by every generated `Marshal`: allocate `size` zero bytes,
fill them with `MarshalToSizedBuffer(dAtA[:size])`, return `dAtA[:n]`. -/
def marshalWith (size : Nat) (fill : List Byte → Except Failure (List Byte × Int)) :
    Except Failure (List Byte) :=
  let dAtA : List Byte := List.replicate size 0
  match slice dAtA 0 size with
  | .error e => .error e
  | .ok buf =>
    match fill buf with
    | .error e => .error e
    | .ok (buf, n) => slice buf 0 n

/-- Go `(*RepoCredsQuery).Marshal` and `(*RepoCredsDeleteRequest).Marshal`. -/
def UrlMessage.Marshal (m : UrlMessage) : Except Failure (List Byte) :=
  marshalWith m.Size m.MarshalToSizedBuffer

/-- Go `(*RepoCredsResponse).Marshal`. -/
def RepoCredsResponse.Marshal (m : RepoCredsResponse) : Except Failure (List Byte) :=
  marshalWith m.Size m.MarshalToSizedBuffer

/-! ### Decoding -/

/-- The varint loop that the generated code repeats for every tag and every
length or value:
`for shift := uint(0); ; shift += 7 { if shift >= 64 {overflow}; if iNdEx >= l {EOF};
b := dAtA[iNdEx]; iNdEx++; x |= uint64(b&0x7F) << shift; if b < 0x80 {break} }`.
Returns the accumulated 64-bit pattern and the index after the last byte read.
Where the source accumulates into an `int` the pattern is the same and is read
through `toInt64`.  The loop runs at most eleven times. -/
def decodeVarint (dAtA : List Byte) : Nat → Nat → Nat → Nat → Except Failure (Nat × Nat)
  | 0, _, _, _ => .error .outOfFuel
  | fuel + 1, shift, iNdEx, x =>
    if shift ≥ 64 then .error (.error .ErrIntOverflowRepocreds)
    else if iNdEx ≥ dAtA.length then .error (.error .ErrUnexpectedEOF)
    else
      match dAtA[iNdEx]? with
      | none => .error .panic
      | some b =>
        let x := x ||| (((b.val &&& 0x7F) <<< shift) % 18446744073709551616)
        if b.val < 0x80 then .ok (x, iNdEx + 1)
        else decodeVarint dAtA fuel (shift + 7) (iNdEx + 1) x

/-- The varint loop of `case 0` in `skipRepocreds`, which only advances:
`if shift >= 64 {overflow}; if iNdEx >= l {EOF}; iNdEx++; if dAtA[iNdEx-1] < 0x80 {break}`.
Returns the index after the last byte read. -/
def skipVarint (dAtA : List Byte) : Nat → Nat → Nat → Except Failure Nat
  | 0, _, _ => .error .outOfFuel
  | fuel + 1, shift, iNdEx =>
    if shift ≥ 64 then .error (.error .ErrIntOverflowRepocreds)
    else if iNdEx ≥ dAtA.length then .error (.error .ErrUnexpectedEOF)
    else
      match dAtA[iNdEx + 1 - 1]? with
      | none => .error .panic
      | some b =>
        if b.val < 0x80 then .ok (iNdEx + 1)
        else skipVarint dAtA fuel (shift + 7) (iNdEx + 1)

/-- The `switch wireType` of `skipRepocreds`: the index (an `int`, possibly
overflowed) and the group depth after the field, or the error returned. -/
def skipField (dAtA : List Byte) (wireType : Nat) (iNdEx depth : Nat) :
    Except Failure (Int × Nat) :=
  match wireType with
  | 0 =>
    match skipVarint dAtA 11 0 iNdEx with
    | .error e => .error e
    | .ok iNdEx => .ok (iNdEx, depth)
  | 1 => .ok (wrapInt (iNdEx + 8), depth)
  | 2 =>
    match decodeVarint dAtA 11 0 iNdEx 0 with
    | .error e => .error e
    | .ok (length, iNdEx) =>
      if toInt64 length < 0 then .error (.error .ErrInvalidLengthRepocreds)
      else .ok (wrapInt (iNdEx + toInt64 length), depth)
  | 3 => .ok (iNdEx, depth + 1)
  | 4 =>
    if depth = 0 then .error (.error .ErrUnexpectedEndOfGroupRepocreds)
    else .ok (iNdEx, depth - 1)
  | 5 => .ok (wrapInt (iNdEx + 4), depth)
  | _ => .error (.error (.illegalWireType wireType))

/-- The `for iNdEx < l` loop of `skipRepocreds`. -/
def skipLoop (dAtA : List Byte) : Nat → Nat → Nat → Except Failure Int
  | 0, _, _ => .error .outOfFuel
  | fuel + 1, iNdEx, depth =>
    if iNdEx < dAtA.length then
      match decodeVarint dAtA 11 0 iNdEx 0 with
      | .error e => .error e
      | .ok (wire, iNdEx) =>
        let wireType := wire &&& 0x7
        match skipField dAtA wireType iNdEx depth with
        | .error e => .error e
        | .ok (iNdEx, depth) =>
          if iNdEx < 0 then .error (.error .ErrInvalidLengthRepocreds)
          else if depth = 0 then .ok iNdEx
          else skipLoop dAtA fuel iNdEx.toNat depth
    else .error (.error .ErrUnexpectedEOF)

/-- Go `skipRepocreds`: the number of bytes of the first field of `dAtA` (a
whole group when the field opens one), or the error. -/
def skipRepocreds (dAtA : List Byte) : Except Failure Int :=
  skipLoop dAtA (dAtA.length + 1) 0 0

/-- The start of every iteration of a generated `Unmarshal`: read the tag, split
it into `fieldNum := int32(wire >> 3)` and `wireType := int(wire & 0x7)`, and
reject an end-group wire type and a field number that is not positive.
`message` is the type name printed in the two errors.  Returns the field number,
the wire type and the index after the tag. -/
def readTag (message : String) (dAtA : List Byte) (iNdEx : Nat) :
    Except Failure (Int × Nat × Nat) :=
  match decodeVarint dAtA 11 0 iNdEx 0 with
  | .error e => .error e
  | .ok (wire, iNdEx) =>
    let fieldNum := toInt32 (wire >>> 3)
    let wireType := wire &&& 0x7
    if wireType = 4 then .error (.error (.endGroupForNonGroup message))
    else if fieldNum ≤ 0 then .error (.error (.illegalTag message fieldNum wire))
    else .ok (fieldNum, wireType, iNdEx)

/-- The `default:` branch of every generated `Unmarshal`: go back to
`preIndex`, measure the field with `skipRepocreds(dAtA[iNdEx:])`, check the
sum `iNdEx + skippy`, and cut `dAtA[iNdEx:iNdEx+skippy]` out.  Returns the bytes
to append to `XXX_unrecognized` and the new index. -/
def unknownField (dAtA : List Byte) (preIndex : Nat) : Except Failure (List Byte × Nat) :=
  let iNdEx := preIndex
  match slice dAtA iNdEx dAtA.length with
  | .error e => .error e
  | .ok rest =>
    match skipRepocreds rest with
    | .error e => .error e
    | .ok skippy =>
      if skippy < 0 then .error (.error .ErrInvalidLengthRepocreds)
      else if wrapInt (iNdEx + skippy) < 0 then .error (.error .ErrInvalidLengthRepocreds)
      else if wrapInt (iNdEx + skippy) > dAtA.length then .error (.error .ErrUnexpectedEOF)
      else
        match slice dAtA iNdEx (wrapInt (iNdEx + skippy)) with
        | .error e => .error e
        | .ok bytes => .ok (bytes, (wrapInt (iNdEx + skippy)).toNat)

/-- The `case 1:` branch of `(*RepoCredsQuery).Unmarshal` after the wire type
check: read the length, check it, and cut the string out.  Returns the string
and the index after it. -/
def readString (dAtA : List Byte) (iNdEx : Nat) : Except Failure (List Byte × Nat) :=
  match decodeVarint dAtA 11 0 iNdEx 0 with
  | .error e => .error e
  | .ok (stringLen, iNdEx) =>
    let intStringLen := toInt64 stringLen
    if intStringLen < 0 then .error (.error .ErrInvalidLengthRepocreds)
    else
      let postIndex := wrapInt (iNdEx + intStringLen)
      if postIndex < 0 then .error (.error .ErrInvalidLengthRepocreds)
      else if postIndex > dAtA.length then .error (.error .ErrUnexpectedEOF)
      else
        match slice dAtA iNdEx postIndex with
        | .error e => .error e
        | .ok str => .ok (str, postIndex.toNat)

/-- The `for iNdEx < l` loop of `(*RepoCredsQuery).Unmarshal` and
`(*RepoCredsDeleteRequest).Unmarshal`, with the check after it.  The message is
updated in place, so it is returned together with the error (`none` for nil),
also when the error is not nil. -/
def UrlMessage.unmarshalLoop (message : String) (dAtA : List Byte) :
    Nat → UrlMessage → Nat → UrlMessage × Option Failure
  | 0, m, _ => (m, some .outOfFuel)
  | fuel + 1, m, iNdEx =>
    if iNdEx < dAtA.length then
      let preIndex := iNdEx
      match readTag message dAtA iNdEx with
      | .error e => (m, some e)
      | .ok (fieldNum, wireType, iNdEx) =>
        if fieldNum = 1 then
          if wireType ≠ 2 then (m, some (.error (.wrongWireType wireType "Url")))
          else
            match readString dAtA iNdEx with
            | .error e => (m, some e)
            | .ok (str, iNdEx) =>
              UrlMessage.unmarshalLoop message dAtA fuel { m with Url := str } iNdEx
        else
          match unknownField dAtA preIndex with
          | .error e => (m, some e)
          | .ok (bytes, iNdEx) =>
            UrlMessage.unmarshalLoop message dAtA fuel
              { m with XXX_unrecognized := m.XXX_unrecognized ++ bytes } iNdEx
    else if iNdEx > dAtA.length then (m, some (.error .ErrUnexpectedEOF))
    else (m, none)

/-- Go `(*RepoCredsQuery).Unmarshal`. -/
def RepoCredsQuery.Unmarshal (m : RepoCredsQuery) (dAtA : List Byte) :
    RepoCredsQuery × Option Failure :=
  UrlMessage.unmarshalLoop "RepoCredsQuery" dAtA (dAtA.length + 1) m 0

/-- Go `(*RepoCredsDeleteRequest).Unmarshal`. -/
def RepoCredsDeleteRequest.Unmarshal (m : RepoCredsDeleteRequest) (dAtA : List Byte) :
    RepoCredsDeleteRequest × Option Failure :=
  UrlMessage.unmarshalLoop "RepoCredsDeleteRequest" dAtA (dAtA.length + 1) m 0

/-- The `for iNdEx < l` loop of `(*RepoCredsResponse).Unmarshal`, with the check
after it; the `switch fieldNum` has the `default:` branch only. -/
def RepoCredsResponse.unmarshalLoop (dAtA : List Byte) :
    Nat → RepoCredsResponse → Nat → RepoCredsResponse × Option Failure
  | 0, m, _ => (m, some .outOfFuel)
  | fuel + 1, m, iNdEx =>
    if iNdEx < dAtA.length then
      let preIndex := iNdEx
      match readTag "RepoCredsResponse" dAtA iNdEx with
      | .error e => (m, some e)
      | .ok _ =>
        match unknownField dAtA preIndex with
        | .error e => (m, some e)
        | .ok (bytes, iNdEx) =>
          RepoCredsResponse.unmarshalLoop dAtA fuel
            { m with XXX_unrecognized := m.XXX_unrecognized ++ bytes } iNdEx
    else if iNdEx > dAtA.length then (m, some (.error .ErrUnexpectedEOF))
    else (m, none)

/-- Go `(*RepoCredsResponse).Unmarshal`. -/
def RepoCredsResponse.Unmarshal (m : RepoCredsResponse) (dAtA : List Byte) :
    RepoCredsResponse × Option Failure :=
  RepoCredsResponse.unmarshalLoop dAtA (dAtA.length + 1) m 0

/-! ### `RepoCredsCreateRequest` -/

/-- The methods of `v1alpha1.RepoCreds` that the generated code of
`RepoCredsCreateRequest` calls.  The type belongs to package
`pkg/apis/application/v1alpha1`, outside the sources, so it is a parameter:
`empty` is `&v1alpha1.RepoCreds{}`, `MarshalToSizedBuffer` returns the buffer
after the writes and the size written, `Unmarshal` the updated value and the
error. -/
structure CredsOps (R : Type) where
  empty : R
  Size : R → Nat
  MarshalToSizedBuffer : R → List Byte → Except Failure (List Byte × Int)
  Unmarshal : R → List Byte → R × Option Failure

/-- Go `RepoCredsCreateRequest`; `Creds` is a pointer, `none` when nil. -/
structure RepoCredsCreateRequest (R : Type) where
  Creds : Option R
  Upsert : Bool
  XXX_unrecognized : List Byte

/-- Go `(*RepoCredsCreateRequest).Size`. -/
def RepoCredsCreateRequest.Size {R : Type} (ops : CredsOps R) (m : RepoCredsCreateRequest R) :
    Nat :=
  let n :=
    match m.Creds with
    | some creds =>
      let l := ops.Size creds
      1 + l + sovRepocreds (l % 18446744073709551616)
    | none => 0
  let n := if m.Upsert then n + 2 else n
  if m.XXX_unrecognized ≠ [] then n + m.XXX_unrecognized.length else n

/-- The `if m.Upsert { ... }` block of
`(*RepoCredsCreateRequest).MarshalToSizedBuffer`. -/
def putUpsert (upsert : Bool) (dAtA : List Byte) (i : Int) : Except Failure (List Byte × Int) :=
  if upsert then
    let i := i - 1
    match (if upsert then setAt dAtA i 1 else setAt dAtA i 0) with
    | .error e => .error e
    | .ok dAtA =>
      let i := i - 1
      match setAt dAtA i 0x10 with
      | .error e => .error e
      | .ok dAtA => .ok (dAtA, i)
  else .ok (dAtA, i)

/-- The `if m.Creds != nil { ... }` block of
`(*RepoCredsCreateRequest).MarshalToSizedBuffer`: the nested message writes
into `dAtA[:i]`, then its length and the tag byte `0xa` are put before it. -/
def putCreds {R : Type} (ops : CredsOps R) (creds : Option R) (dAtA : List Byte) (i : Int) :
    Except Failure (List Byte × Int) :=
  match creds with
  | none => .ok (dAtA, i)
  | some c =>
    match slice dAtA 0 i with
    | .error e => .error e
    | .ok head =>
      match ops.MarshalToSizedBuffer c head with
      | .error e => .error e
      | .ok (head, size) =>
        let dAtA := head ++ dAtA.drop i.toNat
        let i := i - size
        match encodeVarintRepocreds dAtA i (size % 18446744073709551616).toNat with
        | .error e => .error e
        | .ok (dAtA, i) =>
          let i := i - 1
          match setAt dAtA i 0xa with
          | .error e => .error e
          | .ok dAtA => .ok (dAtA, i)

/-- Go `(*RepoCredsCreateRequest).MarshalToSizedBuffer`. -/
def RepoCredsCreateRequest.MarshalToSizedBuffer {R : Type} (ops : CredsOps R)
    (m : RepoCredsCreateRequest R) (dAtA : List Byte) : Except Failure (List Byte × Int) :=
  let i : Int := dAtA.length
  match putUnrecognized m.XXX_unrecognized dAtA i with
  | .error e => .error e
  | .ok (dAtA, i) =>
    match putUpsert m.Upsert dAtA i with
    | .error e => .error e
    | .ok (dAtA, i) =>
      match putCreds ops m.Creds dAtA i with
      | .error e => .error e
      | .ok (dAtA, i) => .ok (dAtA, dAtA.length - i)

/-- Go `(*RepoCredsCreateRequest).Marshal`. -/
def RepoCredsCreateRequest.Marshal {R : Type} (ops : CredsOps R)
    (m : RepoCredsCreateRequest R) : Except Failure (List Byte) :=
  marshalWith (m.Size ops) (m.MarshalToSizedBuffer ops)

/-- The `for iNdEx < l` loop of `(*RepoCredsCreateRequest).Unmarshal`, with the
check after it.  In `case 1` the length is read and checked as in `readString`
(the source accumulates it in an `int`), a nil `Creds` is replaced by an empty
value, and the nested `Unmarshal` runs on `dAtA[iNdEx:postIndex]`; in `case 2`
the varint is read and `Upsert` is set to `v != 0`. -/
def RepoCredsCreateRequest.unmarshalLoop {R : Type} (ops : CredsOps R) (dAtA : List Byte) :
    Nat → RepoCredsCreateRequest R → Nat → RepoCredsCreateRequest R × Option Failure
  | 0, m, _ => (m, some .outOfFuel)
  | fuel + 1, m, iNdEx =>
    if iNdEx < dAtA.length then
      let preIndex := iNdEx
      match readTag "RepoCredsCreateRequest" dAtA iNdEx with
      | .error e => (m, some e)
      | .ok (fieldNum, wireType, iNdEx) =>
        if fieldNum = 1 then
          if wireType ≠ 2 then (m, some (.error (.wrongWireType wireType "Creds")))
          else
            match readString dAtA iNdEx with
            | .error e => (m, some e)
            | .ok (bytes, postIndex) =>
              let creds := match m.Creds with
                | none => ops.empty
                | some c => c
              match ops.Unmarshal creds bytes with
              | (creds, some err) => ({ m with Creds := some creds }, some err)
              | (creds, none) =>
                RepoCredsCreateRequest.unmarshalLoop ops dAtA fuel
                  { m with Creds := some creds } postIndex
        else if fieldNum = 2 then
          if wireType ≠ 0 then (m, some (.error (.wrongWireType wireType "Upsert")))
          else
            match decodeVarint dAtA 11 0 iNdEx 0 with
            | .error e => (m, some e)
            | .ok (v, iNdEx) =>
              RepoCredsCreateRequest.unmarshalLoop ops dAtA fuel
                { m with Upsert := decide (toInt64 v ≠ 0) } iNdEx
        else
          match unknownField dAtA preIndex with
          | .error e => (m, some e)
          | .ok (bytes, iNdEx) =>
            RepoCredsCreateRequest.unmarshalLoop ops dAtA fuel
              { m with XXX_unrecognized := m.XXX_unrecognized ++ bytes } iNdEx
    else if iNdEx > dAtA.length then (m, some (.error .ErrUnexpectedEOF))
    else (m, none)

/-- Go `(*RepoCredsCreateRequest).Unmarshal`. -/
def RepoCredsCreateRequest.Unmarshal {R : Type} (ops : CredsOps R)
    (m : RepoCredsCreateRequest R) (dAtA : List Byte) :
    RepoCredsCreateRequest R × Option Failure :=
  RepoCredsCreateRequest.unmarshalLoop ops dAtA (dAtA.length + 1) m 0

/-! ### `RepoCredsUpdateRequest` -/

/-- Go `RepoCredsUpdateRequest`; `Creds` is a pointer, `none` when nil. -/
structure RepoCredsUpdateRequest (R : Type) where
  Creds : Option R
  XXX_unrecognized : List Byte

/-- The `for iNdEx < l` loop of `(*RepoCredsUpdateRequest).Unmarshal`, with the
check after it: `case 1` as in `RepoCredsCreateRequest`, and the `default:`
branch. -/
def RepoCredsUpdateRequest.unmarshalLoop {R : Type} (ops : CredsOps R) (dAtA : List Byte) :
    Nat → RepoCredsUpdateRequest R → Nat → RepoCredsUpdateRequest R × Option Failure
  | 0, m, _ => (m, some .outOfFuel)
  | fuel + 1, m, iNdEx =>
    if iNdEx < dAtA.length then
      let preIndex := iNdEx
      match readTag "RepoCredsUpdateRequest" dAtA iNdEx with
      | .error e => (m, some e)
      | .ok (fieldNum, wireType, iNdEx) =>
        if fieldNum = 1 then
          if wireType ≠ 2 then (m, some (.error (.wrongWireType wireType "Creds")))
          else
            match readString dAtA iNdEx with
            | .error e => (m, some e)
            | .ok (bytes, postIndex) =>
              let creds := match m.Creds with
                | none => ops.empty
                | some c => c
              match ops.Unmarshal creds bytes with
              | (creds, some err) => ({ m with Creds := some creds }, some err)
              | (creds, none) =>
                RepoCredsUpdateRequest.unmarshalLoop ops dAtA fuel
                  { m with Creds := some creds } postIndex
        else
          match unknownField dAtA preIndex with
          | .error e => (m, some e)
          | .ok (bytes, iNdEx) =>
            RepoCredsUpdateRequest.unmarshalLoop ops dAtA fuel
              { m with XXX_unrecognized := m.XXX_unrecognized ++ bytes } iNdEx
    else if iNdEx > dAtA.length then (m, some (.error .ErrUnexpectedEOF))
    else (m, none)

/-- Go `(*RepoCredsUpdateRequest).Unmarshal`. -/
def RepoCredsUpdateRequest.Unmarshal {R : Type} (ops : CredsOps R)
    (m : RepoCredsUpdateRequest R) (dAtA : List Byte) :
    RepoCredsUpdateRequest R × Option Failure :=
  RepoCredsUpdateRequest.unmarshalLoop ops dAtA (dAtA.length + 1) m 0

/-! ### The wire format as the protocol buffer encoding describes it -/

/-- Stated from the specification of the encoding, not from the code: the
base-128 varint of `n`, least significant group first, every byte but the last
with the high bit set. -/
def varintBytes : Nat → Nat → List Byte
  | 0, _ => []
  | fuel + 1, n =>
    if n < 128 then [Fin.ofNat n]
    else Fin.ofNat (n % 128 + 128) :: varintBytes fuel (n / 128)

/-- Stated from the specification of the encoding: the base-128 varint of a
64-bit value, at most ten bytes. -/
def varint (n : Nat) : List Byte := varintBytes 10 n

/-- Stated from the specification of the encoding: field 1 of wire type bytes
holding `url`, which proto3 leaves out when empty: the tag byte `0x0a`, the
varint of the length, the bytes. -/
def urlFieldEncoding (url : List Byte) : List Byte :=
  if url = [] then [] else (0x0a : Byte) :: (varint url.length ++ url)

/-! ### The manifest-tree check (`test/manifests_test.go`) -/

/-- The two functions of Go's `path/filepath` that the check calls.  They belong
to the standard library, so the check takes them as a parameter. -/
structure Filepath where
  Base : String → String
  Dir : String → String

/-- The error a visit returns: one handed on unchanged (the error `filepath.Walk`
reports for the path, or the error of the `kustomize` command), or one made by
`fmt.Errorf` with the given text. -/
inductive WalkError (Err : Type) where
  | passed (err : Err)
  | message (text : String)
  deriving DecidableEq, Repr

/-- A command started through `argoexec.RunCommand`: its name and arguments. -/
structure Command where
  name : String
  args : List String
  deriving DecidableEq, Repr

/-- The function that `TestBuildManifests` passes to `filepath.Walk`, called
once for every path of the manifests tree with the file info `f` and the error
`err` met on the way to the path (`none` for nil).  `RunCommand` is
`argoexec.RunCommand` with empty options, a collaborator.  The result is the
returned error (`none` for nil) and the commands run. -/
def TestBuildManifests.walkFn {FileInfo Err : Type} (filepath : Filepath)
    (RunCommand : String → List String → Except Err String)
    (path : String) (_f : FileInfo) (err : Option Err) :
    Option (WalkError Err) × List Command :=
  match err with
  | some e => (some (.passed e), [])
  | none =>
    let base := filepath.Base path
    if base = "kustomization.yaml" then
      let dirName := filepath.Dir path
      match RunCommand "kustomize" ["build", dirName] with
      | .error e => (some (.passed e), [⟨"kustomize", ["build", dirName]⟩])
      | .ok _ => (none, [⟨"kustomize", ["build", dirName]⟩])
    else if base = "Kustomization" ∨ base = "kustomization.yml" then
      (some (.message ("Please name file 'kustomization.yaml' instead of '" ++ base ++ "'")), [])
    else if base = "Kustomize" ∨ base = "kustomize.yaml" ∨ base = "kustomize.yml" then
      (some (.message ("'" ++ base ++ "' is not a valid kustomize name")), [])
    else (none, [])

/-- Splits a path at its slashes; the accumulator holds the current element
reversed. -/
def splitSlash : List Char → List Char → List (List Char)
  | [], acc => [acc.reverse]
  | c :: cs, acc => if c = '/' then acc.reverse :: splitSlash cs [] else splitSlash cs (c :: acc)

/-- Go `filepath.Base` for slash-separated paths without a volume name, as its
documentation states it: the last element of the path after removing trailing
slashes; "." for the empty path and "/" for a path of slashes only. -/
def slashBase (path : String) : String :=
  if path = "" then "."
  else
    match ((splitSlash path.toList []).filter (fun e => e ≠ [])).getLast? with
    | none => "/"
    | some e => String.mk e

/-- One step of `filepath.Clean` on the elements kept so far (last one first):
an empty element and "." are dropped, ".." removes the element before it when
there is one that is not "..", is dropped at the root, and is kept otherwise. -/
def cleanStep (rooted : Bool) (out : List (List Char)) (e : List Char) : List (List Char) :=
  if e = [] ∨ e = ['.'] then out
  else if e = ['.', '.'] then
    match out with
    | top :: rest => if top = ['.', '.'] then e :: out else rest
    | [] => if rooted then out else [e]
  else e :: out

/-- Go `filepath.Dir` for slash-separated paths without a volume name, as its
documentation states it: all but the last element of the path, cleaned; "."
when nothing is left and "/" when only the root is left. -/
def slashDir (path : String) : String :=
  let elements := (splitSlash path.toList []).dropLast
  let rooted := decide (path.toList.head? = some '/')
  let kept := (elements.foldl (cleanStep rooted) []).reverse
  let body := String.intercalate "/" (kept.map String.mk)
  if rooted then "/" ++ body else if body = "" then "." else body

/-- The slash-separated instance of the two `path/filepath` functions. -/
def slashFilepath : Filepath := { Base := slashBase, Dir := slashDir }

/-! ## Part 2: theorems -/

/-! ### Start-up configuration -/

theorem ParseNumFromEnv_unset (env : Environ) (name : String) (d lo hi : Int)
    (h : env name = none) : ParseNumFromEnv env name d lo hi = d := by
  simp [ParseNumFromEnv, Getenv, h]

/-- C1: when none of the three pause-generation environment variables is set,
the init constants built at start-up carry a failure threshold of 3, a pause of
60 minutes and a request budget of 0, and the manifest service is constructed
from exactly these constants. -/
theorem startup_defaults_when_unset {Metrics Cache Opts Cert Err Service : Type}
    (common : Common) (env : Environ) (flags : Flags) (cert : Cert) (mkOpts : Cert → Opts)
    (metricsServer : Metrics) (cache : Cache)
    (NewService : Metrics → Cache → RepoServerInitConstants → Service)
    (h1 : env common.EnvPauseGenerationAfterFailedAttempts = none)
    (h2 : env common.EnvPauseGenerationMinutes = none)
    (h3 : env common.EnvPauseGenerationRequests = none) :
    (NewCommand.initConstants common env flags).PauseGenerationAfterFailedGenerationAttempts = 3
    ∧ (NewCommand.initConstants common env flags).PauseGenerationOnFailureForMinutes = 60
    ∧ (NewCommand.initConstants common env flags).PauseGenerationOnFailureForRequests = 0
    ∧ Except.map (fun a => (CreateGRPC NewService a).manifestService)
        (NewServer (Except.ok cert : Except Err Cert) mkOpts metricsServer cache
          (NewCommand.initConstants common env flags))
      = Except.ok (NewService metricsServer cache
          { ParallelismLimit := flags.parallelismLimit
            PauseGenerationAfterFailedGenerationAttempts := 3
            PauseGenerationOnFailureForMinutes := 60
            PauseGenerationOnFailureForRequests := 0 }) := by
  have e1 := ParseNumFromEnv_unset env common.EnvPauseGenerationAfterFailedAttempts
    defaultPauseGenerationAfterFailedGenerationAttempts 0 MaxInt32 h1
  have e2 := ParseNumFromEnv_unset env common.EnvPauseGenerationMinutes
    defaultPauseGenerationOnFailureForMinutes 0 MaxInt32 h2
  have e3 := ParseNumFromEnv_unset env common.EnvPauseGenerationRequests
    defaultPauseGenerationOnFailureForRequests 0 MaxInt32 h3
  simp only [NewCommand.initConstants, getPauseGenerationAfterFailedGenerationAttempts,
    getPauseGenerationOnFailureForMinutes, getPauseGenerationOnFailureForRequests, e1, e2, e3,
    NewServer, CreateGRPC, Except.map]
  exact ⟨rfl, rfl, rfl, rfl⟩

/-- Witness for C1: an empty environment, the flag defaults and port 8081; the
service constructor returns the constants it is given. -/
theorem startup_defaults_when_unset_witness :
    (NewCommand.initConstants ⟨"A", "B", "C"⟩ (fun _ => none)
      { listenPort := 8081 }).PauseGenerationAfterFailedGenerationAttempts = 3
    ∧ (NewCommand.initConstants ⟨"A", "B", "C"⟩ (fun _ => none)
      { listenPort := 8081 }).PauseGenerationOnFailureForMinutes = 60
    ∧ (NewCommand.initConstants ⟨"A", "B", "C"⟩ (fun _ => none)
      { listenPort := 8081 }).PauseGenerationOnFailureForRequests = 0
    ∧ Except.map (fun a => (CreateGRPC (fun _ _ c => c) a).manifestService)
        (NewServer (Except.ok () : Except Unit Unit) (fun _ => ()) () ()
          (NewCommand.initConstants ⟨"A", "B", "C"⟩ (fun _ => none) { listenPort := 8081 }))
      = Except.ok
          { ParallelismLimit := 0
            PauseGenerationAfterFailedGenerationAttempts := 3
            PauseGenerationOnFailureForMinutes := 60
            PauseGenerationOnFailureForRequests := 0 } :=
  @startup_defaults_when_unset Unit Unit Unit Unit Unit RepoServerInitConstants
    ⟨"A", "B", "C"⟩ (fun _ => none) { listenPort := 8081 } () (fun _ => ()) () ()
    (fun _ _ c => c) rfl rfl rfl

theorem cacheGet_absent {Manifests : Type} (st : OrchestratorState Manifests) (fp : Nat)
    (now : Int) (h : st.cache fp = none) : cacheGet st fp now = none := by
  simp [cacheGet, h]

/-- A generation that misses the cache, finds the target not Open and fails in
the collaborator: the failure is returned, the collaborator ran once, the cache
is untouched and the failure is recorded for the target. -/
theorem generate_failure {Request Manifests RenderErr : Type} (c : RepoServerInitConstants)
    (cacheTTL : Int) (fingerprint target : Request → Nat)
    (render : Request → Except RenderErr Manifests) (now : Int) (req : Request)
    (st : OrchestratorState Manifests) (err : RenderErr)
    (hcache : st.cache (fingerprint req) = none)
    (hclosed : ∀ fs, st.failures (target req) = some fs → breakerOpen c fs now = false)
    (hfail : render req = .error err) :
    (generate c cacheTTL fingerprint target render now req st).outcome
        = .error (.RenderFailure err)
    ∧ (generate c cacheTTL fingerprint target render now req st).invocations = 1
    ∧ (generate c cacheTTL fingerprint target render now req st).state.cache = st.cache
    ∧ (generate c cacheTTL fingerprint target render now req st).state.failures (target req)
        = some (recordFailure c (st.failures (target req)) now) := by
  have hfilter : (st.failures (target req)).filter (fun fs => breakerOpen c fs now) = none := by
    cases hfs : st.failures (target req) with
    | none => rfl
    | some fs => simp [Option.filter, hclosed fs hfs]
  simp [generate, cacheGet_absent st _ now hcache, hfilter, hfail]

/-- A generation that misses the cache and finds the target Open: it is rejected
with the pause error and the collaborator is not invoked. -/
theorem generate_rejected {Request Manifests RenderErr : Type} (c : RepoServerInitConstants)
    (cacheTTL : Int) (fingerprint target : Request → Nat)
    (render : Request → Except RenderErr Manifests) (now : Int) (req : Request)
    (st : OrchestratorState Manifests) (fs : FailureState)
    (hcache : st.cache (fingerprint req) = none)
    (hfs : st.failures (target req) = some fs) (hopen : breakerOpen c fs now = true) :
    (generate c cacheTTL fingerprint target render now req st).outcome = .error .BreakerOpen
    ∧ (generate c cacheTTL fingerprint target render now req st).invocations = 0 := by
  have hfilter : (st.failures (target req)).filter (fun fs => breakerOpen c fs now) = some fs := by
    simp [hfs, Option.filter, hopen]
  simp [generate, cacheGet_absent st _ now hcache, hfilter]

/-- C5: with the configuration that start-up passes when the environment sets
none of the three variables (threshold 3, pause 60 minutes), three consecutive
failed generations for one target are each run and returned as failures, and a
fourth request for that target less than 60 minutes after the third failure is
rejected with the BreakerOpen error without the collaborator being invoked. -/
theorem breaker_open_after_three_failures {Request Manifests RenderErr : Type}
    (common : Common) (env : Environ) (flags : Flags) (cacheTTL : Int)
    (fingerprint target : Request → Nat)
    (render1 render2 render3 render4 : Request → Except RenderErr Manifests)
    (r1 r2 r3 r4 : Request) (e1 e2 e3 : RenderErr) (t1 t2 t3 t4 : Int)
    (st : OrchestratorState Manifests)
    (h1 : env common.EnvPauseGenerationAfterFailedAttempts = none)
    (h2 : env common.EnvPauseGenerationMinutes = none)
    (h3 : env common.EnvPauseGenerationRequests = none)
    (hsame : target r1 = target r4 ∧ target r2 = target r4 ∧ target r3 = target r4)
    (hnew : st.failures (target r4) = none)
    (hcache : st.cache (fingerprint r1) = none ∧ st.cache (fingerprint r2) = none
      ∧ st.cache (fingerprint r3) = none ∧ st.cache (fingerprint r4) = none)
    (hf1 : render1 r1 = .error e1) (hf2 : render2 r2 = .error e2)
    (hf3 : render3 r3 = .error e3)
    (hwindow : t4 < t3 + 60 * 60) :
    let c := NewCommand.initConstants common env flags
    let g1 := generate c cacheTTL fingerprint target render1 t1 r1 st
    let g2 := generate c cacheTTL fingerprint target render2 t2 r2 g1.state
    let g3 := generate c cacheTTL fingerprint target render3 t3 r3 g2.state
    let g4 := generate c cacheTTL fingerprint target render4 t4 r4 g3.state
    (g1.outcome = .error (.RenderFailure e1) ∧ g1.invocations = 1)
    ∧ (g2.outcome = .error (.RenderFailure e2) ∧ g2.invocations = 1)
    ∧ (g3.outcome = .error (.RenderFailure e3) ∧ g3.invocations = 1)
    ∧ g4.outcome = .error .BreakerOpen ∧ g4.invocations = 0 := by
  intro c g1 g2 g3 g4
  have hc1 : c.PauseGenerationAfterFailedGenerationAttempts = 3 :=
    ParseNumFromEnv_unset env _ _ 0 MaxInt32 h1
  have hc2 : c.PauseGenerationOnFailureForMinutes = 60 :=
    ParseNumFromEnv_unset env _ _ 0 MaxInt32 h2
  have hc3 : c.PauseGenerationOnFailureForRequests = 0 :=
    ParseNumFromEnv_unset env _ _ 0 MaxInt32 h3
  obtain ⟨hs1, hs2, hs3⟩ := hsame
  obtain ⟨hk1, hk2, hk3, hk4⟩ := hcache
  -- first failure
  have s1 := generate_failure c cacheTTL fingerprint target render1 t1 r1 st e1 hk1
    (by intro fs hfs; rw [hs1, hnew] at hfs; cases hfs) hf1
  obtain ⟨o1, i1, c1, f1⟩ := s1
  rw [hs1, hnew] at f1
  -- second failure
  have s2 := generate_failure c cacheTTL fingerprint target render2 t2 r2 g1.state e2
    (by show g1.state.cache _ = none; rw [c1]; exact hk2)
    (by
      intro fs hfs
      rw [hs2] at hfs
      have : some fs = some (recordFailure c none t1) := hfs.symm.trans f1
      simp only [Option.some.injEq] at this
      subst this
      simp [breakerOpen, recordFailure, hc1]) hf2
  obtain ⟨o2, i2, c2, f2⟩ := s2
  rw [hs2] at f2
  have f1' : g1.state.failures (target r4) = some (recordFailure c none t1) := f1
  rw [f1'] at f2
  -- third failure
  have s3 := generate_failure c cacheTTL fingerprint target render3 t3 r3 g2.state e3
    (by show g2.state.cache _ = none; rw [c2, c1]; exact hk3)
    (by
      intro fs hfs
      rw [hs3] at hfs
      have : some fs = _ := hfs.symm.trans f2
      simp only [Option.some.injEq] at this
      subst this
      simp [breakerOpen, recordFailure, hc1]) hf3
  obtain ⟨o3, i3, c3, f3⟩ := s3
  rw [hs3] at f3
  have f2' : g2.state.failures (target r4)
      = some (recordFailure c (some (recordFailure c none t1)) t2) := f2
  rw [f2'] at f3
  -- the fourth request
  have s4 := generate_rejected c cacheTTL fingerprint target render4 t4 r4 g3.state _
    (by show g3.state.cache _ = none; rw [c3, c2, c1]; exact hk4) f3
    (by
      simp only [breakerOpen, recordFailure, hc1, hc2, hc3]
      simp
      omega)
  exact ⟨⟨o1, i1⟩, ⟨o2, i2⟩, ⟨o3, i3⟩, s4.1, s4.2⟩

/-- Witness for C5: a collaborator that always fails, asked four times for the
same request at times 0, 10, 20 and 30 seconds, from the fresh state. -/
theorem breaker_open_after_three_failures_witness :
    (generate (NewCommand.initConstants ⟨"A", "B", "C"⟩ (fun _ => none) ⟨0, 8081⟩) 300
        (fun (r : Nat) => r) (fun (r : Nat) => r)
        (fun _ => (Except.error () : Except Unit Unit)) 30 7
        (generate (NewCommand.initConstants ⟨"A", "B", "C"⟩ (fun _ => none) ⟨0, 8081⟩) 300
          (fun (r : Nat) => r) (fun (r : Nat) => r)
          (fun _ => (Except.error () : Except Unit Unit)) 20 7
          (generate (NewCommand.initConstants ⟨"A", "B", "C"⟩ (fun _ => none) ⟨0, 8081⟩) 300
            (fun (r : Nat) => r) (fun (r : Nat) => r)
            (fun _ => (Except.error () : Except Unit Unit)) 10 7
            (generate (NewCommand.initConstants ⟨"A", "B", "C"⟩ (fun _ => none) ⟨0, 8081⟩) 300
              (fun (r : Nat) => r) (fun (r : Nat) => r)
              (fun _ => (Except.error () : Except Unit Unit)) 0 7
              OrchestratorState.fresh).state).state).state).outcome = .error .BreakerOpen :=
  (@breaker_open_after_three_failures Nat Unit Unit ⟨"A", "B", "C"⟩ (fun _ => none) ⟨0, 8081⟩
    300 (fun r => r) (fun r => r) (fun _ => .error ()) (fun _ => .error ())
    (fun _ => .error ()) (fun _ => .error ()) 7 7 7 7 () () () 0 10 20 30
    OrchestratorState.fresh rfl rfl rfl ⟨rfl, rfl, rfl⟩ rfl ⟨rfl, rfl, rfl, rfl⟩ rfl rfl rfl
    (by decide)).2.2.2.1

/-! ### The wire format: sizes and encoding -/

theorem lenBits_le (fuel : Nat) :
    ∀ (x n : Nat), x < 2 ^ fuel → (lenBits fuel x ≤ n ↔ x < 2 ^ n) := by
  induction fuel with
  | zero =>
    intro x n hx
    have : x = 0 := by simpa using hx
    subst this
    simp [lenBits]
  | succ f ih =>
    intro x n hx
    unfold lenBits
    by_cases h0 : x = 0
    · subst h0; simp
    · simp only [h0, if_false]
      cases n with
      | zero => simp; omega
      | succ k =>
        have hx2 : x / 2 < 2 ^ f := by
          rw [Nat.div_lt_iff_lt_mul (by decide)]
          rw [pow_succ] at hx
          exact hx
        rw [Nat.add_le_add_iff_right, ih (x / 2) k hx2, Nat.div_lt_iff_lt_mul (by decide), pow_succ]

theorem le_or_one (v : Nat) : v ≤ v ||| 1 := by
  apply Nat.le_of_testBit
  intro i h
  simp [Nat.testBit_or, h]

theorem sovRepocreds_le (v j : Nat) (hv : v < 2 ^ 64) (hj : 1 ≤ j) :
    sovRepocreds v ≤ j ↔ v < 128 ^ j := by
  have h1 : v ||| 1 < 2 ^ 64 := Nat.or_lt_two_pow hv (by decide)
  have hmod : (v ||| 1) % 18446744073709551616 = v ||| 1 := Nat.mod_eq_of_lt h1
  have key := lenBits_le 64 (v ||| 1) (7 * j) h1
  have hpow : (128 : Nat) ^ j = 2 ^ (7 * j) := by
    rw [pow_mul]; norm_num
  unfold sovRepocreds Len64
  rw [hmod, hpow]
  constructor
  · intro h
    have : lenBits 64 (v ||| 1) ≤ 7 * j := by omega
    exact lt_of_le_of_lt (le_or_one v) (key.1 this)
  · intro h
    have h1j : 1 < 2 ^ (7 * j) := by
      apply Nat.one_lt_two_pow; omega
    have : lenBits 64 (v ||| 1) ≤ 7 * j := key.2 (Nat.or_lt_two_pow h h1j)
    omega

theorem sovRepocreds_pos (v : Nat) (hv : v < 2 ^ 64) : 1 ≤ sovRepocreds v := by
  have h1 : v ||| 1 < 2 ^ 64 := Nat.or_lt_two_pow hv (by decide)
  have hmod : (v ||| 1) % 18446744073709551616 = v ||| 1 := Nat.mod_eq_of_lt h1
  have key := lenBits_le 64 (v ||| 1) 0 h1
  unfold sovRepocreds Len64
  rw [hmod]
  have h2 : 1 ≤ v ||| 1 := by
    have := Nat.le_of_testBit (n := 1) (m := v ||| 1) (by
      intro i h
      rw [Nat.testBit_or, h]; simp)
    exact this
  have : ¬ lenBits 64 (v ||| 1) ≤ 0 := by
    rw [key]; simp; omega
  omega

theorem varintBytes_length_pos (f n : Nat) : 1 ≤ (varintBytes (f + 1) n).length := by
  unfold varintBytes
  split <;> simp

theorem varintBytes_length_le (f : Nat) : ∀ (n j : Nat), n < 128 ^ (f + 1) → 1 ≤ j →
    ((varintBytes (f + 1) n).length ≤ j ↔ n < 128 ^ j) := by
  induction f with
  | zero =>
    intro n j hn hj
    have hn' : n < 128 := by simpa using hn
    simp only [varintBytes, hn', if_true, List.length_singleton]
    constructor
    · intro _
      calc n < 128 := hn'
        _ = 128 ^ 1 := by norm_num
        _ ≤ 128 ^ j := Nat.pow_le_pow_right (by decide) hj
    · intro _; exact hj
  | succ f ih =>
    intro n j hn hj
    rw [varintBytes]
    by_cases h : n < 128
    · simp only [h, if_true, List.length_singleton]
      constructor
      · intro _
        calc n < 128 := h
          _ = 128 ^ 1 := by norm_num
          _ ≤ 128 ^ j := Nat.pow_le_pow_right (by decide) hj
      · intro _; exact hj
    · simp only [h, if_false, List.length_cons]
      have hn2 : n / 128 < 128 ^ (f + 1) := by
        rw [Nat.div_lt_iff_lt_mul (by decide)]
        rw [pow_succ] at hn; exact hn
      obtain ⟨k, rfl⟩ : ∃ k, j = k + 1 := ⟨j - 1, by omega⟩
      cases k with
      | zero =>
        have := varintBytes_length_pos f (n / 128)
        constructor
        · intro hl
          omega
        · intro hl
          have : n < 128 := by simpa using hl
          omega
      | succ k =>
        rw [Nat.add_le_add_iff_right, ih (n / 128) (k + 1) hn2 (by omega),
          Nat.div_lt_iff_lt_mul (by decide), pow_succ 128 (k + 1)]

theorem sovRepocreds_eq_length (v : Nat) (hv : v < 2 ^ 64) :
    sovRepocreds v = (varint v).length := by
  have hv' : v < 128 ^ (9 + 1) := lt_trans hv (by norm_num)
  have hp := sovRepocreds_pos v hv
  have hq := varintBytes_length_pos 9 v
  apply le_antisymm
  · show _ ≤ (varintBytes (9 + 1) v).length
    rw [sovRepocreds_le v _ hv hq]
    exact (varintBytes_length_le 9 v _ hv' hq).1 (le_refl _)
  · show (varintBytes (9 + 1) v).length ≤ _
    rw [varintBytes_length_le 9 v _ hv' hp]
    exact (sovRepocreds_le v _ hv hp).1 (le_refl _)

theorem setAt_append (pre post : List Byte) (x b : Byte) (i : Int) (hi : i = pre.length) :
    setAt (pre ++ x :: post) i b = .ok (pre ++ b :: post) := by
  subst hi
  have h : (0 : Int) ≤ (pre.length : Int) ∧ (pre.length : Int) < ((pre ++ x :: post).length : Nat) := by
    constructor
    · omega
    · simp only [List.length_append, List.length_cons]; omega
  simp only [setAt, h, and_self, if_true, Int.toNat_ofNat]
  simp

theorem copyAt_append (pre mid post src : List Byte) (i : Int) (hi : i = pre.length)
    (hlen : mid.length = src.length) :
    copyAt (pre ++ mid ++ post) i src = .ok (pre ++ src ++ post) := by
  subst hi
  have h : (0 : Int) ≤ (pre.length : Int)
      ∧ (pre.length : Int) ≤ ((pre ++ mid ++ post).length : Nat) := by
    constructor
    · omega
    · simp only [List.length_append]; omega
  simp only [copyAt, h, and_self, if_true, Int.toNat_ofNat]
  have hk : min ((pre ++ mid ++ post).length - pre.length) src.length = src.length := by
    simp only [List.length_append]; omega
  rw [hk]
  have h1 : List.take pre.length (pre ++ mid ++ post) = pre := by
    rw [List.append_assoc, List.take_left]
  have h2 : List.drop (pre.length + src.length) (pre ++ mid ++ post) = post := by
    rw [← hlen, ← List.length_append, List.drop_left]
  rw [h1, h2, List.take_length]

theorem slice_full (dAtA : List Byte) (hi : Int) (h : hi = dAtA.length) :
    slice dAtA 0 hi = .ok dAtA := by
  subst h
  simp [slice]

theorem and_or_byte (v : Nat) : v &&& 0x7f ||| 0x80 = v % 128 + 128 := by
  have h1 : v &&& 0x7f = v % 128 := Nat.and_pow_two_sub_one_eq_mod v 7
  rw [h1]
  have h2 : v % 128 < 2 ^ 7 := Nat.mod_lt _ (by decide)
  have h3 := Nat.mul_add_lt_is_or h2 1
  rw [Nat.or_comm]
  simp only [Nat.mul_one] at h3
  rw [← h3]
  norm_num
  omega

theorem encodeVarintLoop_spec (f : Nat) : ∀ (v : Nat) (pre mid post : List Byte) (offset : Int),
    v < 128 ^ (f + 1) → offset = pre.length → mid.length = (varintBytes (f + 1) v).length →
    encodeVarintLoop (f + 1) (pre ++ mid ++ post) offset v
      = .ok (pre ++ varintBytes (f + 1) v ++ post) := by
  have h128 : (1 : Nat) <<< 7 = 128 := by decide
  induction f with
  | zero =>
    intro v pre mid post offset hv hoff hmid
    have h : v < 128 := by simpa using hv
    have hn : ¬ v ≥ 128 := by omega
    unfold encodeVarintLoop
    unfold varintBytes at hmid ⊢
    rw [h128]
    simp only [hn, if_false, h, if_true] at hmid ⊢
    match mid, hmid with
    | [x], _ =>
      simp only [List.append_assoc, List.singleton_append]
      exact setAt_append pre post x _ offset hoff
  | succ f ih =>
    intro v pre mid post offset hv hoff hmid
    unfold encodeVarintLoop
    rw [h128]
    rw [varintBytes] at hmid ⊢
    by_cases h : v < 128
    · have hn : ¬ v ≥ 128 := by omega
      simp only [hn, if_false, h, if_true] at hmid ⊢
      match mid, hmid with
      | [x], _ =>
        simp only [List.append_assoc, List.singleton_append]
        exact setAt_append pre post x _ offset hoff
    · have hn : v ≥ 128 := by omega
      simp only [hn, if_true, h, if_false] at hmid ⊢
      match mid, hmid with
      | x :: mid', hmid' =>
        simp only [List.length_cons, add_left_inj] at hmid'
        have hs : setAt (pre ++ (x :: mid') ++ post) offset (toUint8 (v &&& 0x7f ||| 0x80))
            = .ok (pre ++ toUint8 (v &&& 0x7f ||| 0x80) :: (mid' ++ post)) := by
          have := setAt_append pre (mid' ++ post) x (toUint8 (v &&& 0x7f ||| 0x80)) offset hoff
          simpa using this
        rw [hs]
        simp only
        have hv2 : v >>> 7 < 128 ^ (f + 1) := by
          rw [Nat.shiftRight_eq_div_pow, Nat.div_lt_iff_lt_mul (by decide)]
          rw [pow_succ] at hv; exact hv
        have := ih (v >>> 7) (pre ++ [toUint8 (v &&& 0x7f ||| 0x80)]) mid' post (offset + 1) hv2
          (by subst hoff; simp) (by rw [Nat.shiftRight_eq_div_pow]; exact hmid')
        simp only [List.append_assoc, List.singleton_append, List.cons_append, List.nil_append] at this ⊢
        rw [this, and_or_byte, Nat.shiftRight_eq_div_pow]
        simp [toUint8]

theorem putUnrecognized_spec (unrecognized z mid : List Byte) (i : Int)
    (hi : i = z.length + mid.length) (hmid : mid.length = unrecognized.length) :
    putUnrecognized unrecognized (z ++ mid) i = .ok (z ++ unrecognized, (z.length : Int)) := by
  unfold putUnrecognized
  by_cases h : unrecognized = []
  · subst h
    have : mid = [] := List.length_eq_zero.mp (by simpa using hmid)
    subst this
    simp [hi]
  · simp only [ne_eq, h, not_false_eq_true, if_true]
    have hc := copyAt_append z mid [] unrecognized (i - unrecognized.length)
      (by rw [hi, hmid]; omega) hmid
    simp only [List.append_nil] at hc
    rw [hc]
    simp only [Except.ok.injEq, Prod.mk.injEq, true_and]
    rw [hi, hmid]; omega

theorem urlFieldEncoding_length (url : List Byte) (h : url.length < 2 ^ 64) :
    (urlFieldEncoding url).length
      = if url.length > 0 then 1 + url.length + sovRepocreds (url.length % 18446744073709551616)
        else 0 := by
  unfold urlFieldEncoding
  by_cases h0 : url = []
  · subst h0; simp
  · have hpos : url.length > 0 := List.length_pos.mpr h0
    have hmod : url.length % 18446744073709551616 = url.length := Nat.mod_eq_of_lt h
    simp only [h0, if_false, hpos, if_true, List.length_cons, List.length_append, hmod,
      sovRepocreds_eq_length _ h]
    omega

theorem UrlMessage.Size_eq (m : UrlMessage) (h : m.Url.length < 2 ^ 64) :
    m.Size = (urlFieldEncoding m.Url ++ m.XXX_unrecognized).length := by
  unfold UrlMessage.Size
  rw [List.length_append, urlFieldEncoding_length _ h]
  by_cases hu : m.XXX_unrecognized = []
  · simp [hu]
  · simp [hu]

theorem UrlMessage.MarshalToSizedBuffer_spec (m : UrlMessage) (h : m.Url.length < 2 ^ 64) :
    m.MarshalToSizedBuffer (List.replicate m.Size 0)
      = .ok (urlFieldEncoding m.Url ++ m.XXX_unrecognized, (m.Size : Int)) := by
  have hsize := UrlMessage.Size_eq m h
  have hlen := urlFieldEncoding_length m.Url h
  rw [List.length_append] at hsize
  have hrep : List.replicate m.Size (0 : Byte)
      = List.replicate (urlFieldEncoding m.Url).length 0
        ++ List.replicate m.XXX_unrecognized.length 0 := by
    rw [hsize, List.replicate_add]
  unfold UrlMessage.MarshalToSizedBuffer
  simp only
  rw [hrep, putUnrecognized_spec m.XXX_unrecognized _ _ _ (by simp) (by simp)]
  simp only [List.length_replicate]
  by_cases h0 : m.Url = []
  · have hz : (urlFieldEncoding m.Url) = [] := by simp [urlFieldEncoding, h0]
    rw [hz] at hsize ⊢
    simp [h0, hsize]
  · have hpos : m.Url.length > 0 := List.length_pos.mpr h0
    have hmod : m.Url.length % 18446744073709551616 = m.Url.length := Nat.mod_eq_of_lt h
    simp only [hpos, if_true] at hlen ⊢
    rw [hmod] at hlen ⊢
    have hk := sovRepocreds_eq_length _ h
    have hv : m.Url.length < 128 ^ (9 + 1) := lt_trans h (by norm_num)
    -- the buffer, cut where the writes fall
    have hbuf : List.replicate (urlFieldEncoding m.Url).length (0 : Byte)
        = [0] ++ List.replicate (sovRepocreds m.Url.length) 0
          ++ List.replicate m.Url.length 0 := by
      have : 1 + m.Url.length + sovRepocreds m.Url.length
          = 1 + sovRepocreds m.Url.length + m.Url.length := by omega
      rw [hlen, this, List.replicate_add, List.replicate_add]
      rfl
    rw [hbuf]
    have hc := copyAt_append ([0] ++ List.replicate (sovRepocreds m.Url.length) (0 : Byte))
      (List.replicate m.Url.length 0) m.XXX_unrecognized m.Url
      (((urlFieldEncoding m.Url).length : Int) - m.Url.length)
      (by rw [hlen]; simp; omega) (by simp)
    rw [hc]
    simp only
    unfold encodeVarintRepocreds
    simp only
    have he := encodeVarintLoop_spec 9 m.Url.length [0]
      (List.replicate (sovRepocreds m.Url.length) 0) (m.Url ++ m.XXX_unrecognized)
      (((urlFieldEncoding m.Url).length : Int) - m.Url.length - sovRepocreds m.Url.length)
      hv (by rw [hlen]; simp; omega) (by rw [List.length_replicate, hk]; rfl)
    simp only [List.append_assoc] at he ⊢
    rw [he]
    simp only
    have hs := setAt_append [] (varintBytes (9 + 1) m.Url.length ++ (m.Url ++ m.XXX_unrecognized))
      0 0xa (((urlFieldEncoding m.Url).length : Int) - m.Url.length - sovRepocreds m.Url.length - 1)
      (by rw [hlen]; simp; omega)
    simp only [List.nil_append, List.singleton_append] at hs ⊢
    rw [hs]
    simp only [Except.ok.injEq, Prod.mk.injEq]
    constructor
    · simp [urlFieldEncoding, h0, varint]
    · have hk' : (varintBytes (9 + 1) m.Url.length).length = sovRepocreds m.Url.length :=
        hk.symm
      rw [hsize, hlen]
      simp only [List.length_cons, List.length_append, hk']
      push_cast
      omega

theorem UrlMessage.Marshal_eq_encoding (m : UrlMessage) (h : m.Url.length < 2 ^ 64) :
    m.Marshal = .ok (urlFieldEncoding m.Url ++ m.XXX_unrecognized) := by
  unfold UrlMessage.Marshal marshalWith
  simp only
  rw [slice_full _ _ (by simp)]
  simp only
  rw [UrlMessage.MarshalToSizedBuffer_spec m h]
  simp only
  exact slice_full _ _ (by rw [UrlMessage.Size_eq m h])

theorem getElem?_mid (pre post : List Byte) (b : Byte) :
    (pre ++ b :: post)[pre.length]? = some b := by
  rw [List.getElem?_append_right (le_refl _)]
  simp

theorem chunk_or (acc c shift : Nat) (hacc : acc < 2 ^ shift) (hc : c * 2 ^ shift < 2 ^ 64) :
    acc ||| ((c <<< shift) % 18446744073709551616) = acc + c * 2 ^ shift := by
  have h64 : (18446744073709551616 : Nat) = 2 ^ 64 := by norm_num
  rw [Nat.shiftLeft_eq, h64, Nat.mod_eq_of_lt hc, Nat.or_comm, Nat.mul_comm c,
    ← Nat.mul_add_lt_is_or hacc c]
  omega

theorem and_7f (b : Nat) : b &&& 0x7F = b % 128 := Nat.and_pow_two_sub_one_eq_mod b 7

theorem decodeVarint_varintBytes (f : Nat) : ∀ (n shift acc : Nat) (pre post : List Byte)
    (fuel : Nat), n < 128 ^ (f + 1) → acc < 2 ^ shift → n * 2 ^ shift < 2 ^ 64 → shift < 64 →
    f + 1 ≤ fuel →
    decodeVarint (pre ++ varintBytes (f + 1) n ++ post) fuel shift pre.length acc
      = .ok (acc + n * 2 ^ shift, pre.length + (varintBytes (f + 1) n).length) := by
  induction f with
  | zero =>
    intro n shift acc pre post fuel hn hacc hbound hshift hfuel
    have h : n < 128 := by simpa using hn
    obtain ⟨fuel', rfl⟩ : ∃ k, fuel = k + 1 := ⟨fuel - 1, by omega⟩
    have hs : ¬ shift ≥ 64 := by omega
    have hval : (Fin.ofNat n : Byte).val = n := by
      show n % 256 = n
      omega
    unfold decodeVarint
    simp only [varintBytes, h, if_true, hs, if_false, List.append_assoc, List.singleton_append,
      getElem?_mid, List.length_append, List.length_cons, hval, and_7f]
    have hlen : ¬ (pre.length ≥ pre.length + (post.length + 1)) := by omega
    have hmod : n % 128 = n := Nat.mod_eq_of_lt h
    simp only [hlen, if_false, h, if_true, hmod, chunk_or acc n shift hacc hbound,
      List.length_singleton, List.length_nil, zero_add]
  | succ f ih =>
    intro n shift acc pre post fuel hn hacc hbound hshift hfuel
    obtain ⟨fuel', rfl⟩ : ∃ k, fuel = k + 1 := ⟨fuel - 1, by omega⟩
    have hs : ¬ shift ≥ 64 := by omega
    rw [varintBytes]
    by_cases h : n < 128
    · have hval : (Fin.ofNat n : Byte).val = n := by
        show n % 256 = n
        omega
      unfold decodeVarint
      simp only [h, if_true, hs, if_false, List.append_assoc, List.singleton_append,
        getElem?_mid, List.length_append, List.length_cons, hval, and_7f]
      have hlen : ¬ (pre.length ≥ pre.length + (post.length + 1)) := by omega
      have hmod : n % 128 = n := Nat.mod_eq_of_lt h
      simp only [hlen, if_false, h, if_true, hmod, chunk_or acc n shift hacc hbound,
        List.length_singleton, List.length_nil, zero_add]
    · have hval : (Fin.ofNat (n % 128 + 128) : Byte).val = n % 128 + 128 := by
        show (n % 128 + 128) % 256 = n % 128 + 128
        omega
      have hP : 0 < 2 ^ shift := Nat.two_pow_pos shift
      have hdiv : 1 ≤ n / 128 := by omega
      have hsplit : n * 2 ^ shift = (n / 128) * 2 ^ (shift + 7) + (n % 128) * 2 ^ shift := by
        have := Nat.div_add_mod n 128
        calc n * 2 ^ shift = (128 * (n / 128) + n % 128) * 2 ^ shift := by rw [this]
          _ = (n / 128) * 2 ^ (shift + 7) + (n % 128) * 2 ^ shift := by ring
      have hchunk : (n % 128) * 2 ^ shift < 2 ^ 64 := by omega
      have hrest : (n / 128) * 2 ^ (shift + 7) < 2 ^ 64 := by omega
      have hshift' : shift + 7 < 64 := by
        by_contra hc
        have : 2 ^ 64 ≤ 2 ^ (shift + 7) := Nat.pow_le_pow_right (by decide) (by omega)
        have : 2 ^ (shift + 7) ≤ (n / 128) * 2 ^ (shift + 7) := Nat.le_mul_of_pos_left _ hdiv
        omega
      have hacc' : acc + (n % 128) * 2 ^ shift < 2 ^ (shift + 7) := by
        have h1 : (n % 128) * 2 ^ shift ≤ 127 * 2 ^ shift :=
          Nat.mul_le_mul_right _ (by omega)
        have h2 : 2 ^ (shift + 7) = 128 * 2 ^ shift := by ring
        omega
      have hn2 : n / 128 < 128 ^ (f + 1) := by
        rw [Nat.div_lt_iff_lt_mul (by decide)]
        rw [pow_succ] at hn; exact hn
      unfold decodeVarint
      simp only [h, if_false, hs, List.append_assoc, List.cons_append,
        getElem?_mid, List.length_append, List.length_cons, hval, and_7f]
      have hlen : ¬ (pre.length ≥
          pre.length + ((varintBytes (f + 1) (n / 128)).length + post.length + 1)) := by omega
      have hmod : (n % 128 + 128) % 128 = n % 128 := by omega
      have hge : ¬ (n % 128 + 128 < 128) := by omega
      simp only [hlen, if_false, hmod, hge, chunk_or acc (n % 128) shift hacc hchunk]
      have := ih (n / 128) (shift + 7) (acc + (n % 128) * 2 ^ shift)
        (pre ++ [Fin.ofNat (n % 128 + 128)]) post fuel' hn2 hacc' hrest hshift' (by omega)
      simp only [List.append_assoc, List.singleton_append, List.length_append,
        List.length_singleton, List.cons_append, List.nil_append] at this
      rw [this]
      simp only [Except.ok.injEq, Prod.mk.injEq]
      constructor <;> omega

theorem decodeVarint_single (dAtA : List Byte) (i fuel : Nat) (b : Byte)
    (h : dAtA[i]? = some b) (hb : b.val < 128) :
    decodeVarint dAtA (fuel + 1) 0 i 0 = .ok (b.val, i + 1) := by
  have hi : i < dAtA.length := by
    by_contra hc
    rw [List.getElem?_eq_none (by omega)] at h
    cases h
  have hi' : ¬ i ≥ dAtA.length := by omega
  unfold decodeVarint
  have hx : 0 ||| (((b.val &&& 0x7F) <<< 0) % 18446744073709551616) = b.val := by
    rw [and_7f, Nat.shiftLeft_eq]
    simp
    omega
  have h64 : ¬ ((0 : Nat) ≥ 64) := by omega
  have hb' : b.val < 0x80 := hb
  simp only [h64, if_false, hi', h, hx, hb', if_true]

theorem toInt64_of_lt (x : Nat) (h : x < 2 ^ 63) : toInt64 x = x := by
  unfold toInt64
  have h1 : x % 18446744073709551616 = x := Nat.mod_eq_of_lt (by omega)
  rw [h1]
  have h2 : x < 9223372036854775808 := by
    have : (2 : Nat) ^ 63 = 9223372036854775808 := by norm_num
    omega
  simp [h2]

theorem wrapInt_of_range (x : Int) (h0 : 0 ≤ x) (h : x < 2 ^ 63) : wrapInt x = x := by
  unfold wrapInt
  have : (2 : Int) ^ 63 = 9223372036854775808 := by norm_num
  omega

theorem UrlMessage.unmarshalLoop_end (message : String) (dAtA : List Byte) (fuel : Nat)
    (m : UrlMessage) (i : Nat) (hf : 1 ≤ fuel) (hi : i = dAtA.length) :
    UrlMessage.unmarshalLoop message dAtA fuel m i = (m, none) := by
  obtain ⟨k, rfl⟩ : ∃ k, fuel = k + 1 := ⟨fuel - 1, by omega⟩
  unfold UrlMessage.unmarshalLoop
  simp [hi]

theorem readTag_single (message : String) (dAtA : List Byte) (i : Nat) (b : Byte)
    (h : dAtA[i]? = some b) (hb : b.val < 128) (h8 : 8 ≤ b.val) (h4 : b.val % 8 ≠ 4) :
    readTag message dAtA i = .ok ((b.val / 8 : Nat), b.val % 8, i + 1) := by
  unfold readTag
  rw [decodeVarint_single dAtA i 10 b h hb]
  have hw : b.val &&& 0x7 = b.val % 8 := Nat.and_pow_two_sub_one_eq_mod b.val 3
  have hf : toInt32 (b.val >>> 3) = (b.val / 8 : Nat) := by
    rw [Nat.shiftRight_eq_div_pow]
    unfold toInt32
    have : b.val / 2 ^ 3 % 4294967296 = b.val / 8 := by
      norm_num
      omega
    rw [this]
    have : b.val / 8 < 2147483648 := by omega
    simp [this]
  simp only [hw, hf, h4, if_false]
  have : ¬ (((b.val / 8 : Nat) : Int) ≤ 0) := by omega
  simp only [this, if_false]

theorem decodeVarint_varint (n : Nat) (pre post : List Byte) (hn : n < 2 ^ 64) :
    decodeVarint (pre ++ varint n ++ post) 11 0 pre.length 0
      = .ok (n, pre.length + (varint n).length) := by
  have hv : n < 128 ^ (9 + 1) := lt_trans hn (by norm_num)
  have hd := decodeVarint_varintBytes 9 n 0 0 pre post 11 hv (by norm_num)
    (by norm_num; omega) (by norm_num) (by norm_num)
  simp only [pow_zero, mul_one, zero_add] at hd
  exact hd

theorem slice_mid (pre mid post : List Byte) (lo hi : Int) (hlo : lo = pre.length)
    (hhi : hi = pre.length + mid.length) :
    slice (pre ++ mid ++ post) lo hi = .ok mid := by
  subst hlo hhi
  unfold slice
  have hcond : (0 : Int) ≤ (pre.length : Int)
      ∧ (pre.length : Int) ≤ (pre.length : Int) + (mid.length : Int)
      ∧ (pre.length : Int) + (mid.length : Int) ≤ ((pre ++ mid ++ post).length : Nat) := by
    simp only [List.length_append]; omega
  simp only [hcond, and_self, if_true, Int.toNat_ofNat]
  have ht : ((pre.length : Int) + (mid.length : Int)).toNat = (pre ++ mid).length := by
    simp only [List.length_append]; omega
  rw [ht, List.take_left, List.drop_left]

theorem readString_varint (pre str post : List Byte)
    (hlen : (pre ++ varint str.length ++ str ++ post).length < 2 ^ 63) :
    readString (pre ++ varint str.length ++ str ++ post) pre.length
      = .ok (str, pre.length + (varint str.length).length + str.length) := by
  have hl : str.length < 2 ^ 63 := by
    simp only [List.length_append] at hlen; omega
  have hd := decodeVarint_varint str.length pre (str ++ post) (by omega)
  have h63 : (2 : Nat) ^ 63 = 9223372036854775808 := by norm_num
  have hassoc : pre ++ varint str.length ++ str ++ post
      = pre ++ varint str.length ++ (str ++ post) := by simp
  have hp : wrapInt (((pre.length + (varint str.length).length : Nat) : Int)
      + (str.length : Int))
      = ((pre.length + (varint str.length).length + str.length : Nat) : Int) := by
    rw [wrapInt_of_range _ (by omega)]
    · push_cast; ring
    · simp only [List.length_append] at hlen
      have : (2 : Int) ^ 63 = 9223372036854775808 := by norm_num
      omega
  have hneg : ¬ ((str.length : Int) < 0) := by omega
  have hneg2 : ¬ (((pre.length + (varint str.length).length + str.length : Nat) : Int)
      < 0) := by omega
  have hle : ¬ (((pre.length + (varint str.length).length + str.length : Nat) : Int)
      > ((pre ++ varint str.length ++ str ++ post).length : Nat)) := by
    simp only [List.length_append]; omega
  have hs := slice_mid (pre ++ varint str.length) str post
    ((pre.length + (varint str.length).length : Nat) : Int)
    ((pre.length + (varint str.length).length + str.length : Nat) : Int)
    (by simp) (by simp)
  unfold readString
  rw [hassoc] at hle hs ⊢
  rw [hd]
  simp only
  rw [toInt64_of_lt _ hl, hp]
  simp only [hneg, hneg2, hle, if_false, hs, Int.toNat_ofNat]

theorem UrlMessage.unmarshalLoop_urlField (message : String) (m0 : UrlMessage)
    (url : List Byte) (hne : url ≠ []) (hlen : (urlFieldEncoding url).length < 2 ^ 63) :
    UrlMessage.unmarshalLoop message (urlFieldEncoding url)
      ((urlFieldEncoding url).length + 1) m0 0 = ({ m0 with Url := url }, none) := by
  have henc : urlFieldEncoding url = [(0x0a : Byte)] ++ varint url.length ++ url ++ [] := by
    simp [urlFieldEncoding, hne]
  rw [henc] at hlen ⊢
  have hpos : 0 < ([(0x0a : Byte)] ++ varint url.length ++ url ++ []).length := by simp
  have htag := readTag_single message ([(0x0a : Byte)] ++ varint url.length ++ url ++ []) 0 0x0a
    (by simp) (by decide) (by decide) (by decide)
  have hstr := readString_varint [(0x0a : Byte)] url [] hlen
  rw [UrlMessage.unmarshalLoop]
  simp only [hpos, if_true, htag]
  have h1 : (((0x0a : Byte).val / 8 : Nat) : Int) = 1 := by decide
  have h2 : (0x0a : Byte).val % 8 = 2 := by decide
  simp only [h1, h2, if_true, ne_eq, not_true_eq_false, if_false]
  simp only [List.length_singleton] at hstr
  rw [show (0 : Nat) + 1 = 1 from rfl, hstr]
  simp only
  apply UrlMessage.unmarshalLoop_end
  · simp
  · simp only [List.length_append, List.length_singleton, List.length_nil]; omega

theorem UrlMessage.unmarshalLoop_roundtrip (message : String) (m : UrlMessage)
    (hlen : (urlFieldEncoding m.Url).length < 2 ^ 63) :
    UrlMessage.unmarshalLoop message (urlFieldEncoding m.Url)
      ((urlFieldEncoding m.Url).length + 1) ⟨[], []⟩ 0 = (⟨m.Url, []⟩, none) := by
  by_cases hne : m.Url = []
  · rw [hne]
    have : urlFieldEncoding [] = [] := by simp [urlFieldEncoding]
    rw [this]
    exact UrlMessage.unmarshalLoop_end message [] _ _ 0 (by simp) rfl
  · exact UrlMessage.unmarshalLoop_urlField message ⟨[], []⟩ m.Url hne hlen

theorem UrlMessage.length_le_Size (m : UrlMessage) : m.Url.length ≤ m.Size := by
  unfold UrlMessage.Size
  simp only
  split <;> split <;> omega

theorem RepoCredsResponse.Marshal_eq_unrecognized (m : RepoCredsResponse) :
    m.Marshal = .ok m.XXX_unrecognized := by
  have hsize : m.Size = m.XXX_unrecognized.length := by
    unfold RepoCredsResponse.Size
    by_cases h : m.XXX_unrecognized = []
    · simp [h]
    · simp [h]
  unfold RepoCredsResponse.Marshal marshalWith RepoCredsResponse.MarshalToSizedBuffer
  simp only
  rw [slice_full _ _ (by simp)]
  simp only
  have hp := putUnrecognized_spec m.XXX_unrecognized [] (List.replicate m.Size 0)
    ((List.replicate m.Size (0 : Byte)).length : Int) (by simp) (by simp [hsize])
  simp only [List.nil_append] at hp
  rw [hp]
  simp only
  exact slice_full _ _ (by simp)

theorem unknownField_ok (dAtA : List Byte) (i j : Nat) (bytes : List Byte)
    (h : unknownField dAtA i = .ok (bytes, j)) :
    i ≤ j ∧ j ≤ dAtA.length ∧ bytes = (dAtA.take j).drop i := by
  unfold unknownField at h
  simp only at h
  split at h
  · cases h
  · split at h
    · cases h
    · rename_i skippy _
      split at h
      · cases h
      · split at h
        · cases h
        · split at h
          · cases h
          · split at h
            · cases h
            · rename_i bs hs
              simp only [Except.ok.injEq, Prod.mk.injEq] at h
              obtain ⟨hb, hj⟩ := h
              unfold slice at hs
              split at hs
              · rename_i hc
                simp only [Except.ok.injEq] at hs
                subst hb
                rw [← hj, ← hs]
                refine ⟨by omega, by omega, ?_⟩
                simp
              · cases hs

theorem RepoCredsResponse.unmarshalLoop_unrecognized (dAtA : List Byte) (fuel : Nat) :
    ∀ (m m' : RepoCredsResponse) (i : Nat), i ≤ dAtA.length →
      RepoCredsResponse.unmarshalLoop dAtA fuel m i = (m', none) →
      m'.XXX_unrecognized = m.XXX_unrecognized ++ dAtA.drop i := by
  induction fuel with
  | zero =>
    intro m m' i _ h
    simp [RepoCredsResponse.unmarshalLoop] at h
  | succ fuel ih =>
    intro m m' i hi h
    rw [RepoCredsResponse.unmarshalLoop] at h
    split at h
    · simp only at h
      split at h
      · simp at h
      · split at h
        · simp at h
        · rename_i bytes j hu
          obtain ⟨h1, h2, h3⟩ := unknownField_ok dAtA i j bytes hu
          have := ih _ m' j h2 h
          rw [this, h3]
          simp only [List.append_assoc, List.append_cancel_left_eq]
          rw [List.drop_take]
          have : List.drop j dAtA = List.drop (j - i) (List.drop i dAtA) := by
            rw [List.drop_drop]; congr 1; omega
          rw [this, List.take_append_drop]
    · split at h
      · simp at h
      · simp only [Prod.mk.injEq, and_true] at h
        subst h
        have : i = dAtA.length := by omega
        subst this
        simp

theorem decodeVarint_safe (dAtA : List Byte) (k : Nat) : ∀ (shift i x : Nat),
    64 ≤ shift + 7 * k →
    (∀ f, decodeVarint dAtA (k + 1) shift i x = .error f → f.isError = true)
    ∧ (∀ y j, decodeVarint dAtA (k + 1) shift i x = .ok (y, j) → i < j ∧ j ≤ dAtA.length) := by
  induction k with
  | zero =>
    intro shift i x hs
    have : shift ≥ 64 := by omega
    unfold decodeVarint
    simp only [this, if_true]
    constructor
    · intro f h; cases h; rfl
    · intro y j h; cases h
  | succ k ih =>
    intro shift i x hs
    rw [decodeVarint]
    split
    · constructor
      · intro f h; cases h; rfl
      · intro y j h; cases h
    · split
      · constructor
        · intro f h; cases h; rfl
        · intro y j h; cases h
      · rename_i hi
        have hi' : i < dAtA.length := by omega
        rw [List.getElem?_eq_getElem hi']
        simp only
        split
        · constructor
          · intro f h; cases h
          · intro y j h
            simp only [Except.ok.injEq, Prod.mk.injEq] at h
            omega
        · have := ih (shift + 7) (i + 1)
            (x ||| (((dAtA[i]).val &&& 0x7F) <<< shift) % 18446744073709551616) (by omega)
          constructor
          · exact this.1
          · intro y j h
            have := this.2 y j h
            omega

theorem skipVarint_safe (dAtA : List Byte) (k : Nat) : ∀ (shift i : Nat),
    64 ≤ shift + 7 * k →
    (∀ f, skipVarint dAtA (k + 1) shift i = .error f → f.isError = true)
    ∧ (∀ j, skipVarint dAtA (k + 1) shift i = .ok j → i < j ∧ j ≤ dAtA.length) := by
  induction k with
  | zero =>
    intro shift i hs
    have : shift ≥ 64 := by omega
    unfold skipVarint
    simp only [this, if_true]
    constructor
    · intro f h; cases h; rfl
    · intro j h; cases h
  | succ k ih =>
    intro shift i hs
    rw [skipVarint]
    split
    · constructor
      · intro f h; cases h; rfl
      · intro j h; cases h
    · split
      · constructor
        · intro f h; cases h; rfl
        · intro j h; cases h
      · rename_i hi
        have hi' : i + 1 - 1 < dAtA.length := by omega
        rw [List.getElem?_eq_getElem hi']
        simp only
        split
        · constructor
          · intro f h; cases h
          · intro j h
            simp only [Except.ok.injEq] at h
            omega
        · have := ih (shift + 7) (i + 1) (by omega)
          constructor
          · exact this.1
          · intro j h
            have := this.2 j h
            omega

theorem wrapInt_add (a b : Int) (ha0 : 0 ≤ a) (ha : a < 2 ^ 63) (hb0 : 0 ≤ b) (hb : b < 2 ^ 63) :
    wrapInt (a + b) < 0 ∨ wrapInt (a + b) = a + b := by
  unfold wrapInt
  have : (2 : Int) ^ 63 = 9223372036854775808 := by norm_num
  omega

theorem toInt64_lt (x : Nat) : toInt64 x < 2 ^ 63 := by
  unfold toInt64
  have : (2 : Int) ^ 63 = 9223372036854775808 := by norm_num
  split <;> omega

theorem wrapInt_lt (x : Int) : wrapInt x < 2 ^ 63 := by
  unfold wrapInt
  have : (2 : Int) ^ 63 = 9223372036854775808 := by norm_num
  omega

theorem skipField_safe (dAtA : List Byte) (wireType i depth : Nat)
    (hl : dAtA.length < 2 ^ 63) (hi : i ≤ dAtA.length) :
    (∀ f, skipField dAtA wireType i depth = .error f → f.isError = true)
    ∧ (∀ j d, skipField dAtA wireType i depth = .ok (j, d) →
        j < 2 ^ 63 ∧ (j < 0 ∨ (i : Int) ≤ j)) := by
  have h63 : (2 : Int) ^ 63 = 9223372036854775808 := by norm_num
  have h63n : (2 : Nat) ^ 63 = 9223372036854775808 := by norm_num
  unfold skipField
  split
  · have hs := skipVarint_safe dAtA 10 0 i (by omega)
    split
    · rename_i e he
      constructor
      · intro f h
        simp only [Except.error.injEq] at h
        subst h
        exact hs.1 _ he
      · intro j d h; cases h
    · rename_i j' he
      constructor
      · intro f h; cases h
      · intro j d h
        simp only [Except.ok.injEq, Prod.mk.injEq] at h
        have := hs.2 j' he
        omega
  · constructor
    · intro f h; cases h
    · intro j d h
      simp only [Except.ok.injEq, Prod.mk.injEq] at h
      have := wrapInt_add i 8 (by omega) (by omega) (by omega) (by omega)
      have := wrapInt_lt ((i : Int) + 8)
      omega
  · have hs := decodeVarint_safe dAtA 10 0 i 0 (by omega)
    split
    · rename_i e he
      constructor
      · intro f h
        simp only [Except.error.injEq] at h
        subst h
        exact hs.1 _ he
      · intro j d h; cases h
    · rename_i length j' he
      have hj := hs.2 length j' he
      split
      · constructor
        · intro f h; cases h; rfl
        · intro j d h; cases h
      · rename_i hneg
        constructor
        · intro f h; cases h
        · intro j d h
          simp only [Except.ok.injEq, Prod.mk.injEq] at h
          have := wrapInt_add j' (toInt64 length) (by omega) (by omega) (by omega)
            (toInt64_lt length)
          have := wrapInt_lt ((j' : Int) + toInt64 length)
          omega
  · constructor
    · intro f h; cases h
    · intro j d h
      simp only [Except.ok.injEq, Prod.mk.injEq] at h
      omega
  · split
    · constructor
      · intro f h; cases h; rfl
      · intro j d h; cases h
    · constructor
      · intro f h; cases h
      · intro j d h
        simp only [Except.ok.injEq, Prod.mk.injEq] at h
        omega
  · constructor
    · intro f h; cases h
    · intro j d h
      simp only [Except.ok.injEq, Prod.mk.injEq] at h
      have := wrapInt_add i 4 (by omega) (by omega) (by omega) (by omega)
      have := wrapInt_lt ((i : Int) + 4)
      omega
  · constructor
    · intro f h; cases h; rfl
    · intro j d h; cases h

theorem skipLoop_safe (dAtA : List Byte) (hl : dAtA.length < 2 ^ 63) (fuel : Nat) :
    ∀ (i depth : Nat), 1 ≤ fuel → dAtA.length + 1 ≤ fuel + i →
    (∀ f, skipLoop dAtA fuel i depth = .error f → f.isError = true)
    ∧ (∀ n, skipLoop dAtA fuel i depth = .ok n → (i : Int) < n ∧ n < 2 ^ 63) := by
  induction fuel with
  | zero => intro i depth h; omega
  | succ fuel ih =>
    intro i depth _ hfuel
    rw [skipLoop]
    split
    · rename_i hi
      have hd := decodeVarint_safe dAtA 10 0 i 0 (by omega)
      split
      · rename_i e he
        constructor
        · intro f h
          simp only [Except.error.injEq] at h
          subst h
          exact hd.1 _ he
        · intro n h; cases h
      · rename_i wire j he
        have hj := hd.2 wire j he
        have hs := skipField_safe dAtA (wire &&& 0x7) j depth hl hj.2
        simp only
        split
        · rename_i e he2
          constructor
          · intro f h
            simp only [Except.error.injEq] at h
            subst h
            exact hs.1 _ he2
          · intro n h; cases h
        · rename_i j2 d2 he2
          have hj2 := hs.2 j2 d2 he2
          split
          · constructor
            · intro f h; cases h; rfl
            · intro n h; cases h
          · split
            · constructor
              · intro f h; cases h
              · intro n h
                simp only [Except.ok.injEq] at h
                omega
            · have := ih j2.toNat d2 (by omega) (by omega)
              constructor
              · exact this.1
              · intro n h
                have := this.2 n h
                omega
    · constructor
      · intro f h; cases h; rfl
      · intro n h; cases h

theorem skipRepocreds_safe (dAtA : List Byte) (hl : dAtA.length < 2 ^ 63) :
    (∀ f, skipRepocreds dAtA = .error f → f.isError = true)
    ∧ (∀ n, skipRepocreds dAtA = .ok n → 0 < n ∧ n < 2 ^ 63) := by
  have := skipLoop_safe dAtA hl (dAtA.length + 1) 0 0 (by omega) (by omega)
  unfold skipRepocreds
  constructor
  · exact this.1
  · intro n h
    have := this.2 n h
    omega

theorem readTag_safe (message : String) (dAtA : List Byte) (i : Nat) :
    (∀ f, readTag message dAtA i = .error f → f.isError = true)
    ∧ (∀ fieldNum wireType j, readTag message dAtA i = .ok (fieldNum, wireType, j) →
        i < j ∧ j ≤ dAtA.length) := by
  have hd := decodeVarint_safe dAtA 10 0 i 0 (by omega)
  unfold readTag
  split
  · rename_i e he
    constructor
    · intro f h
      simp only [Except.error.injEq] at h
      subst h
      exact hd.1 _ he
    · intro a b c h; cases h
  · rename_i wire j he
    have hj := hd.2 wire j he
    simp only
    split
    · constructor
      · intro f h; cases h; rfl
      · intro a b c h; cases h
    · split
      · constructor
        · intro f h; cases h; rfl
        · intro a b c h; cases h
      · constructor
        · intro f h; cases h
        · intro a b c h
          simp only [Except.ok.injEq, Prod.mk.injEq] at h
          omega

theorem slice_safe (dAtA : List Byte) (lo hi : Int) (h : 0 ≤ lo ∧ lo ≤ hi ∧ hi ≤ dAtA.length) :
    slice dAtA lo hi = .ok ((dAtA.take hi.toNat).drop lo.toNat) := by
  simp [slice, h]

theorem readString_safe (dAtA : List Byte) (i : Nat) (hl : dAtA.length < 2 ^ 63) :
    (∀ f, readString dAtA i = .error f → f.isError = true)
    ∧ (∀ str j, readString dAtA i = .ok (str, j) → i < j ∧ j ≤ dAtA.length) := by
  have h63 : (2 : Int) ^ 63 = 9223372036854775808 := by norm_num
  have h63n : (2 : Nat) ^ 63 = 9223372036854775808 := by norm_num
  have hd := decodeVarint_safe dAtA 10 0 i 0 (by omega)
  unfold readString
  split
  · rename_i e he
    constructor
    · intro f h
      simp only [Except.error.injEq] at h
      subst h
      exact hd.1 _ he
    · intro a b h; cases h
  · rename_i stringLen j he
    have hj := hd.2 stringLen j he
    simp only
    split
    · constructor
      · intro f h; cases h; rfl
      · intro a b h; cases h
    · split
      · constructor
        · intro f h; cases h; rfl
        · intro a b h; cases h
      · split
        · constructor
          · intro f h; cases h; rfl
          · intro a b h; cases h
        · have hw := wrapInt_add j (toInt64 stringLen) (by omega) (by omega) (by omega)
            (toInt64_lt stringLen)
          rw [slice_safe dAtA _ _ (by omega)]
          constructor
          · intro f h; cases h
          · intro a b h
            simp only [Except.ok.injEq, Prod.mk.injEq] at h
            omega

theorem unknownField_safe (dAtA : List Byte) (i : Nat) (hl : dAtA.length < 2 ^ 63)
    (hi : i < dAtA.length) :
    (∀ f, unknownField dAtA i = .error f → f.isError = true)
    ∧ (∀ bytes j, unknownField dAtA i = .ok (bytes, j) → i < j ∧ j ≤ dAtA.length) := by
  have h63 : (2 : Int) ^ 63 = 9223372036854775808 := by norm_num
  have h63n : (2 : Nat) ^ 63 = 9223372036854775808 := by norm_num
  unfold unknownField
  simp only
  rw [slice_safe dAtA _ _ (by omega)]
  simp only
  have hrest : ((dAtA.take ((dAtA.length : Int)).toNat).drop ((i : Int)).toNat).length
      < 2 ^ 63 := by
    simp only [Int.toNat_ofNat, List.length_drop, List.length_take]; omega
  have hs := skipRepocreds_safe _ hrest
  split
  · rename_i e he
    constructor
    · intro f h
      simp only [Except.error.injEq] at h
      subst h
      exact hs.1 _ he
    · intro a b h; cases h
  · rename_i skippy he
    have hpos := hs.2 skippy he
    split
    · constructor
      · intro f h; cases h; rfl
      · intro a b h; cases h
    · split
      · constructor
        · intro f h; cases h; rfl
        · intro a b h; cases h
      · split
        · constructor
          · intro f h; cases h; rfl
          · intro a b h; cases h
        · rename_i h1 h2 h3
          have hw : wrapInt ((i : Int) + skippy) = i + skippy := by
            unfold wrapInt at h2 h3 ⊢
            omega
          rw [hw] at h2 h3 ⊢
          rw [slice_safe dAtA _ _ (by omega)]
          constructor
          · intro f h; cases h
          · intro a b h
            simp only [Except.ok.injEq, Prod.mk.injEq] at h
            omega

theorem UrlMessage.unmarshalLoop_returns (message : String) (dAtA : List Byte)
    (hl : dAtA.length < 2 ^ 63) (fuel : Nat) :
    ∀ (m : UrlMessage) (i : Nat), 1 ≤ fuel → dAtA.length + 1 ≤ fuel + i →
    ∀ f, (UrlMessage.unmarshalLoop message dAtA fuel m i).2 = some f → f.isError = true := by
  induction fuel with
  | zero => intro m i h; omega
  | succ fuel ih =>
    intro m i _ hfuel f
    rw [UrlMessage.unmarshalLoop]
    split
    · rename_i hi
      have ht := readTag_safe message dAtA i
      simp only
      split
      · rename_i e he
        intro h
        simp only [Option.some.injEq] at h
        subst h
        exact ht.1 _ he
      · rename_i fieldNum wireType j he
        have hj := ht.2 _ _ _ he
        split
        · split
          · intro h
            simp only [Option.some.injEq] at h
            subst h; rfl
          · have hr := readString_safe dAtA j hl
            split
            · rename_i e he2
              intro h
              simp only [Option.some.injEq] at h
              subst h
              exact hr.1 _ he2
            · rename_i str j2 he2
              have hj2 := hr.2 _ _ he2
              exact ih _ j2 (by omega) (by omega) f
        · have hu := unknownField_safe dAtA i hl hi
          split
          · rename_i e he2
            intro h
            simp only [Option.some.injEq] at h
            subst h
            exact hu.1 _ he2
          · rename_i bytes j2 he2
            have hj2 := hu.2 _ _ he2
            exact ih _ j2 (by omega) (by omega) f
    · split
      · intro h
        simp only [Option.some.injEq] at h
        subst h; rfl
      · intro h; cases h

theorem RepoCredsResponse.unmarshalLoop_no_panic (dAtA : List Byte)
    (hl : dAtA.length < 2 ^ 63) (fuel : Nat) :
    ∀ (m : RepoCredsResponse) (i : Nat), 1 ≤ fuel → dAtA.length + 1 ≤ fuel + i →
    ∀ f, (RepoCredsResponse.unmarshalLoop dAtA fuel m i).2 = some f → f.isError = true := by
  induction fuel with
  | zero => intro m i h; omega
  | succ fuel ih =>
    intro m i _ hfuel f
    rw [RepoCredsResponse.unmarshalLoop]
    split
    · rename_i hi
      have ht := readTag_safe "RepoCredsResponse" dAtA i
      simp only
      split
      · rename_i e he
        intro h
        simp only [Option.some.injEq] at h
        subst h
        exact ht.1 _ he
      · have hu := unknownField_safe dAtA i hl hi
        split
        · rename_i e he2
          intro h
          simp only [Option.some.injEq] at h
          subst h
          exact hu.1 _ he2
        · rename_i bytes j2 he2
          have hj2 := hu.2 _ _ he2
          exact ih _ j2 (by omega) (by omega) f
    · split
      · intro h
        simp only [Option.some.injEq] at h
        subst h; rfl
      · intro h; cases h

/-! ### The claims about the wire format -/

/-- C6: round trip.  For a `RepoCredsQuery` (and likewise a
`RepoCredsDeleteRequest`) with any `Url` and no unrecognized bytes whose size
fits in an `int`, `Marshal` succeeds, and `Unmarshal` of the bytes into a fresh
message succeeds and yields the same `Url` and no unrecognized bytes. -/
theorem marshal_unmarshal_roundtrip (m : UrlMessage) (hno : m.XXX_unrecognized = [])
    (hsize : m.Size < 2 ^ 63) :
    ∃ dAtA, m.Marshal = .ok dAtA
      ∧ RepoCredsQuery.Unmarshal ⟨[], []⟩ dAtA = (⟨m.Url, []⟩, none)
      ∧ RepoCredsDeleteRequest.Unmarshal ⟨[], []⟩ dAtA = (⟨m.Url, []⟩, none) := by
  have hurl : m.Url.length < 2 ^ 64 := by
    have := UrlMessage.length_le_Size m
    have : (2 : Nat) ^ 63 < 2 ^ 64 := by norm_num
    omega
  have hlen : (urlFieldEncoding m.Url).length < 2 ^ 63 := by
    have := UrlMessage.Size_eq m hurl
    rw [hno, List.append_nil] at this
    omega
  refine ⟨urlFieldEncoding m.Url, ?_, ?_, ?_⟩
  · have := UrlMessage.Marshal_eq_encoding m hurl
    rw [hno, List.append_nil] at this
    exact this
  · exact UrlMessage.unmarshalLoop_roundtrip "RepoCredsQuery" m hlen
  · exact UrlMessage.unmarshalLoop_roundtrip "RepoCredsDeleteRequest" m hlen

/-- Witness for C6: the message whose `Url` is the two bytes of "hi". -/
theorem marshal_unmarshal_roundtrip_witness :
    UrlMessage.Size ⟨[104, 105], []⟩ < 2 ^ 63
    ∧ ∃ dAtA, UrlMessage.Marshal ⟨[104, 105], []⟩ = .ok dAtA
      ∧ RepoCredsQuery.Unmarshal ⟨[], []⟩ dAtA = (⟨[104, 105], []⟩, none)
      ∧ RepoCredsDeleteRequest.Unmarshal ⟨[], []⟩ dAtA = (⟨[104, 105], []⟩, none) :=
  ⟨by decide, marshal_unmarshal_roundtrip ⟨[104, 105], []⟩ rfl (by decide)⟩

/-- C7: `Url` is encoded as field 1 of wire type bytes.  For a `RepoCredsQuery`
whose size fits in an `int`, `Marshal` returns the field encoding (empty for an
empty `Url`, otherwise the byte 0x0a, the base-128 varint of the length, and the
bytes) followed by the unrecognized bytes, and the length of that result is
`Size`. -/
theorem marshal_is_field_encoding (m : RepoCredsQuery) (hsize : m.Size < 2 ^ 63) :
    m.Marshal = .ok (urlFieldEncoding m.Url ++ m.XXX_unrecognized)
    ∧ (urlFieldEncoding m.Url ++ m.XXX_unrecognized).length = m.Size := by
  have hurl : m.Url.length < 2 ^ 64 := by
    have := UrlMessage.length_le_Size m
    have : (2 : Nat) ^ 63 < 2 ^ 64 := by norm_num
    omega
  exact ⟨UrlMessage.Marshal_eq_encoding m hurl, (UrlMessage.Size_eq m hurl).symm⟩

/-- Witness for C7: a `Url` of two bytes followed by three unrecognized bytes. -/
theorem marshal_is_field_encoding_witness :
    UrlMessage.Size ⟨[104, 105], [0x10, 0x96, 0x01]⟩ < 2 ^ 63
    ∧ UrlMessage.Marshal ⟨[104, 105], [0x10, 0x96, 0x01]⟩
      = .ok (urlFieldEncoding [104, 105] ++ [0x10, 0x96, 0x01])
    ∧ (urlFieldEncoding [104, 105] ++ [0x10, 0x96, 0x01]).length
      = UrlMessage.Size ⟨[104, 105], [0x10, 0x96, 0x01]⟩ :=
  ⟨by decide, marshal_is_field_encoding ⟨[104, 105], [0x10, 0x96, 0x01]⟩ (by decide)⟩

/-- C8: unknown fields are kept byte for byte.  When `Unmarshal` of a
`RepoCredsResponse` succeeds on `b` starting from a fresh message, the
unrecognized bytes of the message are `b` and `Marshal` returns `b`. -/
theorem unknown_fields_preserved (b : List Byte) (m : RepoCredsResponse)
    (h : RepoCredsResponse.Unmarshal ⟨[]⟩ b = (m, none)) :
    m.XXX_unrecognized = b ∧ m.Marshal = .ok b := by
  have hu := RepoCredsResponse.unmarshalLoop_unrecognized b (b.length + 1) ⟨[]⟩ m 0
    (Nat.zero_le _) h
  simp only [List.nil_append, List.drop_zero] at hu
  refine ⟨hu, ?_⟩
  rw [RepoCredsResponse.Marshal_eq_unrecognized, hu]

/-- Witness for C8: a varint field 1 = 150 followed by a bytes field 2 = "hi". -/
theorem unknown_fields_preserved_witness :
    RepoCredsResponse.Unmarshal ⟨[]⟩ [0x08, 0x96, 0x01, 0x12, 0x02, 104, 105]
      = (⟨[0x08, 0x96, 0x01, 0x12, 0x02, 104, 105]⟩, none)
    ∧ RepoCredsResponse.Marshal ⟨[0x08, 0x96, 0x01, 0x12, 0x02, 104, 105]⟩
      = .ok [0x08, 0x96, 0x01, 0x12, 0x02, 104, 105] :=
  ⟨by decide,
   (unknown_fields_preserved [0x08, 0x96, 0x01, 0x12, 0x02, 104, 105]
    ⟨[0x08, 0x96, 0x01, 0x12, 0x02, 104, 105]⟩ (by decide)).2⟩

/-- C9: `Upsert` is encoded as varint field 2.  For a `RepoCredsCreateRequest`
with nil `Creds` and no unrecognized bytes, `Marshal` returns the two bytes
0x10 0x01 when `Upsert` is true and nothing when it is false, and `Unmarshal` of
these bytes into a fresh message yields the same `Upsert` and a nil `Creds`. -/
theorem upsert_field_encoding {R : Type} (ops : CredsOps R) (upsert : Bool) :
    RepoCredsCreateRequest.Marshal ops ⟨none, upsert, []⟩
      = .ok (if upsert then [0x10, 0x01] else [])
    ∧ RepoCredsCreateRequest.Unmarshal ops ⟨none, false, []⟩
        (if upsert then [0x10, 0x01] else [])
      = (⟨none, upsert, []⟩, none) := by
  cases upsert
  · exact ⟨rfl, rfl⟩
  · exact ⟨rfl, rfl⟩

/-- C10: on every input (a slice, so shorter than `2^63`) `Unmarshal` of
`RepoCredsQuery`, `RepoCredsDeleteRequest` and `RepoCredsResponse` and the
helper `skipRepocreds` come to an end within the fuel given and return nil or an
error: no index and no slice bound is out of range. -/
theorem unmarshal_returns_without_panic (dAtA : List Byte) (mq : RepoCredsQuery)
    (md : RepoCredsDeleteRequest) (mr : RepoCredsResponse) (hl : dAtA.length < 2 ^ 63) :
    (∀ f, (RepoCredsQuery.Unmarshal mq dAtA).2 = some f → f.isError = true)
    ∧ (∀ f, (RepoCredsDeleteRequest.Unmarshal md dAtA).2 = some f → f.isError = true)
    ∧ (∀ f, (RepoCredsResponse.Unmarshal mr dAtA).2 = some f → f.isError = true)
    ∧ (∀ f, skipRepocreds dAtA = .error f → f.isError = true) :=
  ⟨UrlMessage.unmarshalLoop_returns "RepoCredsQuery" dAtA hl _ mq 0 (by omega) (by omega),
   UrlMessage.unmarshalLoop_returns "RepoCredsDeleteRequest" dAtA hl _ md 0 (by omega) (by omega),
   RepoCredsResponse.unmarshalLoop_no_panic dAtA hl _ mr 0 (by omega) (by omega),
   (skipRepocreds_safe dAtA hl).1⟩

/-- Witness for C10: a bytes field that announces five bytes and holds one. -/
theorem unmarshal_returns_without_panic_witness :
    ([0x0a, 0x05, 0x61] : List Byte).length < 2 ^ 63
    ∧ (RepoCredsQuery.Unmarshal ⟨[], []⟩ [0x0a, 0x05, 0x61]).2
      = some (.error .ErrUnexpectedEOF)
    ∧ Failure.isError (.error .ErrUnexpectedEOF) = true :=
  ⟨by decide, by decide,
   (unmarshal_returns_without_panic [0x0a, 0x05, 0x61] ⟨[], []⟩ ⟨[], []⟩ ⟨[]⟩ (by decide)).1
     (.error .ErrUnexpectedEOF) (by decide)⟩

/-! ### The manifest-tree check -/

/-- Counterexample for C15: the walk reports an error for a path whose base name
is "Kustomization" and for one whose base name is "README.md".  The check
returns the reported error: for the first path this is not the error that asks
for the name 'kustomization.yaml', and the second path is not accepted. -/
theorem kustomize_name_check_counterexample :
    slashBase "../manifests/base/Kustomization" = "Kustomization"
    ∧ slashBase "../manifests/README.md" = "README.md"
    ∧ (@TestBuildManifests.walkFn Unit String slashFilepath (fun _ _ => .ok "")
        "../manifests/base/Kustomization" () (some "permission denied")).1
      = some (.passed "permission denied")
    ∧ (@TestBuildManifests.walkFn Unit String slashFilepath (fun _ _ => .ok "")
        "../manifests/base/Kustomization" () (some "permission denied")).1
      ≠ some (.message "Please name file 'kustomization.yaml' instead of 'Kustomization'")
    ∧ (@TestBuildManifests.walkFn Unit String slashFilepath (fun _ _ => .ok "")
        "../manifests/README.md" () (some "permission denied")).1 ≠ none := by
  decide

/-- C15, amended: the check hands on the error that the walk reports for a
path, whatever its base name and without any build.  For a path reported
without error, a base name of "Kustomization" or "kustomization.yml" yields the
error asking to name the file 'kustomization.yaml', a base name of "Kustomize",
"kustomize.yaml" or "kustomize.yml" yields the 'not a valid kustomize name'
error, a base name of "kustomization.yaml" runs `kustomize build` on the
directory of the path, once, and returns its error, and every other base name
is accepted without any build. -/
theorem kustomize_name_check {FileInfo Err : Type} (filepath : Filepath)
    (RunCommand : String → List String → Except Err String) (path : String) (f : FileInfo) :
    (∀ e, TestBuildManifests.walkFn filepath RunCommand path f (some e)
        = (some (.passed e), []))
    ∧ (filepath.Base path = "Kustomization" ∨ filepath.Base path = "kustomization.yml" →
        TestBuildManifests.walkFn filepath RunCommand path f none
          = (some (.message ("Please name file 'kustomization.yaml' instead of '"
              ++ filepath.Base path ++ "'")), []))
    ∧ (filepath.Base path = "Kustomize" ∨ filepath.Base path = "kustomize.yaml"
          ∨ filepath.Base path = "kustomize.yml" →
        TestBuildManifests.walkFn filepath RunCommand path f none
          = (some (.message ("'" ++ filepath.Base path ++ "' is not a valid kustomize name")),
              []))
    ∧ (filepath.Base path = "kustomization.yaml" →
        TestBuildManifests.walkFn filepath RunCommand path f none
          = (match RunCommand "kustomize" ["build", filepath.Dir path] with
              | .error e => some (.passed e)
              | .ok _ => none,
             [⟨"kustomize", ["build", filepath.Dir path]⟩]))
    ∧ (filepath.Base path ≠ "kustomization.yaml" → filepath.Base path ≠ "Kustomization" →
        filepath.Base path ≠ "kustomization.yml" → filepath.Base path ≠ "Kustomize" →
        filepath.Base path ≠ "kustomize.yaml" → filepath.Base path ≠ "kustomize.yml" →
        TestBuildManifests.walkFn filepath RunCommand path f none = (none, [])) := by
  refine ⟨fun e => rfl, ?_, ?_, ?_, ?_⟩
  · intro h
    have hne : filepath.Base path ≠ "kustomization.yaml" := by
      rcases h with h | h <;> rw [h] <;> decide
    simp [TestBuildManifests.walkFn, hne, h]
  · intro h
    have hne : filepath.Base path ≠ "kustomization.yaml" := by
      rcases h with h | h | h <;> rw [h] <;> decide
    have hne2 : ¬ (filepath.Base path = "Kustomization"
        ∨ filepath.Base path = "kustomization.yml") := by
      rcases h with h | h | h <;> rw [h] <;> decide
    simp only [TestBuildManifests.walkFn, hne, hne2, h, if_false, if_true]
  · intro h
    simp only [TestBuildManifests.walkFn, h, if_true]
    cases RunCommand "kustomize" ["build", filepath.Dir path] <;> rfl
  · intro h1 h2 h3 h4 h5 h6
    simp [TestBuildManifests.walkFn, h1, h2, h3, h4, h5, h6]

/-- Witness for C15: the visit of `../manifests/base/kustomization.yaml`
without a walk error, with a `kustomize` that fails. -/
theorem kustomize_name_check_witness :
    slashBase "../manifests/base/kustomization.yaml" = "kustomization.yaml"
    ∧ @TestBuildManifests.walkFn Unit String slashFilepath (fun _ _ => .error "exit status 1")
        "../manifests/base/kustomization.yaml" () none
      = (some (.passed "exit status 1"), [⟨"kustomize", ["build", "../manifests/base"]⟩]) :=
  ⟨by decide,
   (@kustomize_name_check Unit String slashFilepath (fun _ _ => .error "exit status 1")
      "../manifests/base/kustomization.yaml" ()).2.2.2.1 (by decide)⟩

/-! ### The wire format: what the first tag decides -/

/-- The error with which `readTag` rejects a tag, if it does: wire type 4 first,
then a field number that is not positive. -/
theorem readTag_of_decode (message : String) (dAtA : List Byte) (i wire j : Nat)
    (h : decodeVarint dAtA 11 0 i 0 = .ok (wire, j)) :
    readTag message dAtA i
      = if wire &&& 0x7 = 4 then .error (.error (.endGroupForNonGroup message))
        else if toInt32 (wire >>> 3) ≤ 0 then
          .error (.error (.illegalTag message (toInt32 (wire >>> 3)) wire))
        else .ok (toInt32 (wire >>> 3), wire &&& 0x7, j) := by
  unfold readTag
  rw [h]

theorem readTag_of_decode_error (message : String) (dAtA : List Byte) (i : Nat) (e : Failure)
    (h : decodeVarint dAtA 11 0 i 0 = .error e) : readTag message dAtA i = .error e := by
  unfold readTag
  rw [h]

theorem urlMessage_loop_tag_error (message : String) (dAtA : List Byte) (fuel : Nat)
    (m : UrlMessage) (i : Nat) (e : Failure) (hi : i < dAtA.length)
    (h : readTag message dAtA i = .error e) :
    UrlMessage.unmarshalLoop message dAtA (fuel + 1) m i = (m, some e) := by
  rw [UrlMessage.unmarshalLoop]
  simp only [hi, if_true, h]

theorem response_loop_tag_error (dAtA : List Byte) (fuel : Nat)
    (m : RepoCredsResponse) (i : Nat) (e : Failure) (hi : i < dAtA.length)
    (h : readTag "RepoCredsResponse" dAtA i = .error e) :
    RepoCredsResponse.unmarshalLoop dAtA (fuel + 1) m i = (m, some e) := by
  rw [RepoCredsResponse.unmarshalLoop]
  simp only [hi, if_true, h]

theorem createRequest_loop_tag_error {R : Type} (ops : CredsOps R)
    (dAtA : List Byte) (fuel : Nat) (m : RepoCredsCreateRequest R) (i : Nat) (e : Failure)
    (hi : i < dAtA.length) (h : readTag "RepoCredsCreateRequest" dAtA i = .error e) :
    RepoCredsCreateRequest.unmarshalLoop ops dAtA (fuel + 1) m i = (m, some e) := by
  rw [RepoCredsCreateRequest.unmarshalLoop]
  simp only [hi, if_true, h]

theorem updateRequest_loop_tag_error {R : Type} (ops : CredsOps R)
    (dAtA : List Byte) (fuel : Nat) (m : RepoCredsUpdateRequest R) (i : Nat) (e : Failure)
    (hi : i < dAtA.length) (h : readTag "RepoCredsUpdateRequest" dAtA i = .error e) :
    RepoCredsUpdateRequest.unmarshalLoop ops dAtA (fuel + 1) m i = (m, some e) := by
  rw [RepoCredsUpdateRequest.unmarshalLoop]
  simp only [hi, if_true, h]

/-- Ten bytes with the continuation bit set exhaust the 64 bits of a varint. -/
theorem decodeVarint_overflow (dAtA : List Byte) (n : Nat) : ∀ (fuel shift i x : Nat),
    n + 1 ≤ fuel → 64 ≤ shift + 7 * n → i + n ≤ dAtA.length →
    (∀ k b, k < n → dAtA[i + k]? = some b → 128 ≤ b.val) →
    decodeVarint dAtA fuel shift i x = .error (.error .ErrIntOverflowRepocreds) := by
  induction n with
  | zero =>
    intro fuel shift i x hf hs _ _
    obtain ⟨f, rfl⟩ : ∃ f, fuel = f + 1 := ⟨fuel - 1, by omega⟩
    have : shift ≥ 64 := by omega
    unfold decodeVarint
    simp only [this, if_true]
  | succ n ih =>
    intro fuel shift i x hf hs hlen hb
    obtain ⟨f, rfl⟩ : ∃ f, fuel = f + 1 := ⟨fuel - 1, by omega⟩
    rw [decodeVarint]
    split
    · rfl
    · have hi : ¬ i ≥ dAtA.length := by omega
      have hi' : i < dAtA.length := by omega
      simp only [hi, if_false]
      rw [List.getElem?_eq_getElem hi']
      simp only
      have h128 := hb 0 dAtA[i] (by omega) (by simp [List.getElem?_eq_getElem hi'])
      have hnot : ¬ (dAtA[i].val < 0x80) := by omega
      simp only [hnot, if_false]
      apply ih f (shift + 7) (i + 1) _ (by omega) (by omega) (by omega)
      intro k b hk hkb
      apply hb (k + 1) b (by omega)
      rw [← hkb]
      congr 1
      omega

theorem decodeVarint_pos (dAtA : List Byte) (i wire j : Nat)
    (h : decodeVarint dAtA 11 0 i 0 = .ok (wire, j)) : i < dAtA.length := by
  have := (decodeVarint_safe dAtA 10 0 i 0 (by omega)).2 wire j h
  omega

/-- C11: a known field with the wrong wire type is rejected, not skipped.  When
the first tag of the input has field number 1 and a wire type other than 2,
`RepoCredsQuery.Unmarshal` returns an error (the end-group error for wire type
4, the wrong-wire-type error for field `Url` otherwise) and the message,
`Url` included, is as before.  When `RepoCredsCreateRequest.Unmarshal` meets a
tag with field number 2 and a wire type other than 0, at the start of the input
or at any later position of its loop, it returns an error likewise. -/
theorem wrong_wire_type_rejected {R : Type} (ops : CredsOps R) (dAtA : List Byte)
    (wire j i fuel : Nat) (mq : RepoCredsQuery) (mc : RepoCredsCreateRequest R) :
    (decodeVarint dAtA 11 0 0 0 = .ok (wire, j) → toInt32 (wire >>> 3) = 1 →
      wire &&& 0x7 ≠ 2 →
      RepoCredsQuery.Unmarshal mq dAtA
        = (mq, some (.error (if wire &&& 0x7 = 4 then .endGroupForNonGroup "RepoCredsQuery"
            else .wrongWireType (wire &&& 0x7) "Url"))))
    ∧ (decodeVarint dAtA 11 0 0 0 = .ok (wire, j) → toInt32 (wire >>> 3) = 2 →
      wire &&& 0x7 ≠ 0 →
      RepoCredsCreateRequest.Unmarshal ops mc dAtA
        = (mc, some (.error (if wire &&& 0x7 = 4
            then .endGroupForNonGroup "RepoCredsCreateRequest"
            else .wrongWireType (wire &&& 0x7) "Upsert"))))
    ∧ (decodeVarint dAtA 11 0 i 0 = .ok (wire, j) → toInt32 (wire >>> 3) = 2 →
      wire &&& 0x7 ≠ 0 →
      RepoCredsCreateRequest.unmarshalLoop ops dAtA (fuel + 1) mc i
        = (mc, some (.error (if wire &&& 0x7 = 4
            then .endGroupForNonGroup "RepoCredsCreateRequest"
            else .wrongWireType (wire &&& 0x7) "Upsert")))) := by
  have hcreate : ∀ (i fuel : Nat), decodeVarint dAtA 11 0 i 0 = .ok (wire, j) →
      toInt32 (wire >>> 3) = 2 → wire &&& 0x7 ≠ 0 →
      RepoCredsCreateRequest.unmarshalLoop ops dAtA (fuel + 1) mc i
        = (mc, some (.error (if wire &&& 0x7 = 4
            then .endGroupForNonGroup "RepoCredsCreateRequest"
            else .wrongWireType (wire &&& 0x7) "Upsert"))) := by
    intro i fuel hd hf hw
    have hi := decodeVarint_pos dAtA i wire j hd
    have ht := readTag_of_decode "RepoCredsCreateRequest" dAtA i wire j hd
    rw [RepoCredsCreateRequest.unmarshalLoop]
    simp only [hi, if_true, ht, hf]
    by_cases h4 : wire &&& 0x7 = 4
    · simp only [h4, if_true]
    · have h2 : ¬ ((2 : Int) ≤ 0) := by decide
      have h21 : ¬ ((2 : Int) = 1) := by decide
      simp only [h4, if_false, h2, h21, ne_eq, hw, not_false_eq_true, if_true]
  refine ⟨?_, ?_, ?_⟩
  · intro hd hf hw
    have hi := decodeVarint_pos dAtA 0 wire j hd
    have ht := readTag_of_decode "RepoCredsQuery" dAtA 0 wire j hd
    unfold RepoCredsQuery.Unmarshal
    rw [UrlMessage.unmarshalLoop]
    simp only [hi, if_true, ht, hf]
    by_cases h4 : wire &&& 0x7 = 4
    · simp only [h4, if_true]
    · have h1 : ¬ ((1 : Int) ≤ 0) := by decide
      simp only [h4, if_false, h1, ne_eq, hw, not_false_eq_true, if_true]
  · exact hcreate 0 dAtA.length
  · exact hcreate i fuel

/-- C12: an over-long varint is reported as integer overflow.  On an input of at
least ten bytes whose first ten bytes all have the high bit set, `Unmarshal` of
each of the five repocreds messages returns `ErrIntOverflowRepocreds` and leaves
the message as it was. -/
theorem overlong_varint_is_overflow {R : Type} (ops : CredsOps R) (dAtA : List Byte)
    (mq : RepoCredsQuery) (md : RepoCredsDeleteRequest) (mr : RepoCredsResponse)
    (mc : RepoCredsCreateRequest R) (mu : RepoCredsUpdateRequest R)
    (hlen : 10 ≤ dAtA.length)
    (hbits : ∀ k b, k < 10 → dAtA[k]? = some b → 128 ≤ b.val) :
    RepoCredsQuery.Unmarshal mq dAtA = (mq, some (.error .ErrIntOverflowRepocreds))
    ∧ RepoCredsDeleteRequest.Unmarshal md dAtA = (md, some (.error .ErrIntOverflowRepocreds))
    ∧ RepoCredsResponse.Unmarshal mr dAtA = (mr, some (.error .ErrIntOverflowRepocreds))
    ∧ RepoCredsCreateRequest.Unmarshal ops mc dAtA
        = (mc, some (.error .ErrIntOverflowRepocreds))
    ∧ RepoCredsUpdateRequest.Unmarshal ops mu dAtA
        = (mu, some (.error .ErrIntOverflowRepocreds)) := by
  have hd := decodeVarint_overflow dAtA 10 11 0 0 0 (by omega) (by omega) (by omega)
    (by intro k b hk hb; rw [Nat.zero_add] at hb; exact hbits k b hk hb)
  have hi : 0 < dAtA.length := by omega
  exact ⟨urlMessage_loop_tag_error _ dAtA _ mq 0 _ hi (readTag_of_decode_error _ dAtA 0 _ hd),
    urlMessage_loop_tag_error _ dAtA _ md 0 _ hi (readTag_of_decode_error _ dAtA 0 _ hd),
    response_loop_tag_error dAtA _ mr 0 _ hi (readTag_of_decode_error _ dAtA 0 _ hd),
    createRequest_loop_tag_error ops dAtA _ mc 0 _ hi (readTag_of_decode_error _ dAtA 0 _ hd),
    updateRequest_loop_tag_error ops dAtA _ mu 0 _ hi (readTag_of_decode_error _ dAtA 0 _ hd)⟩

/-- A varint cut before its last byte runs into the end of the input. -/
theorem decodeVarint_truncated (f : Nat) : ∀ (n shift x j : Nat) (pre : List Byte) (fuel : Nat),
    n < 128 ^ (f + 1) → n * 2 ^ shift < 2 ^ 64 → shift < 64 →
    j < (varintBytes (f + 1) n).length → j + 1 ≤ fuel →
    decodeVarint (pre ++ (varintBytes (f + 1) n).take j) fuel shift pre.length x
      = .error (.error .ErrUnexpectedEOF) := by
  have hzero : ∀ (shift x : Nat) (pre : List Byte) (fuel : Nat), shift < 64 → 1 ≤ fuel →
      decodeVarint (pre ++ []) fuel shift pre.length x = .error (.error .ErrUnexpectedEOF) := by
    intro shift x pre fuel hs hf
    obtain ⟨k, rfl⟩ : ∃ k, fuel = k + 1 := ⟨fuel - 1, by omega⟩
    have h1 : ¬ shift ≥ 64 := by omega
    unfold decodeVarint
    simp only [h1, if_false, List.append_nil, ge_iff_le, le_refl, if_true]
  induction f with
  | zero =>
    intro n shift x j pre fuel hn _ hs hj hf
    have h : n < 128 := by simpa using hn
    have hj0 : j = 0 := by
      simp only [varintBytes, h, if_true, List.length_singleton] at hj
      omega
    subst hj0
    rw [List.take_zero]
    exact hzero shift x pre fuel hs hf
  | succ f ih =>
    intro n shift x j pre fuel hn hbound hs hj hf
    cases j with
    | zero =>
      rw [List.take_zero]
      exact hzero shift x pre fuel hs hf
    | succ j =>
      rw [varintBytes] at hj ⊢
      by_cases h : n < 128
      · simp only [h, if_true, List.length_singleton] at hj
        omega
      · simp only [h, if_false, List.length_cons, add_lt_add_iff_right] at hj
        simp only [h, if_false, List.take_succ_cons]
        obtain ⟨k, rfl⟩ : ∃ k, fuel = k + 1 := ⟨fuel - 1, by omega⟩
        have h1 : ¬ shift ≥ 64 := by omega
        have hval : (Fin.ofNat (n % 128 + 128) : Byte).val = n % 128 + 128 := by
          show (n % 128 + 128) % 256 = n % 128 + 128
          omega
        have hdiv : 1 ≤ n / 128 := by omega
        have hle : (n / 128) * 2 ^ (shift + 7) ≤ n * 2 ^ shift := by
          have h2 : 2 ^ (shift + 7) = 128 * 2 ^ shift := by ring
          rw [h2, ← Nat.mul_assoc]
          exact Nat.mul_le_mul_right _ (Nat.div_mul_le_self n 128)
        have hrest : (n / 128) * 2 ^ (shift + 7) < 2 ^ 64 := by omega
        have hshift' : shift + 7 < 64 := by
          by_contra hc
          have : 2 ^ 64 ≤ 2 ^ (shift + 7) := Nat.pow_le_pow_right (by decide) (by omega)
          have : 2 ^ (shift + 7) ≤ (n / 128) * 2 ^ (shift + 7) := Nat.le_mul_of_pos_left _ hdiv
          omega
        have hn2 : n / 128 < 128 ^ (f + 1) := by
          rw [Nat.div_lt_iff_lt_mul (by decide)]
          rw [pow_succ] at hn; exact hn
        unfold decodeVarint
        simp only [h1, if_false, getElem?_mid, List.length_append, List.length_cons, hval]
        have hlen : ¬ (pre.length ≥ pre.length +
            ((List.take j (varintBytes (f + 1) (n / 128))).length + 1)) := by omega
        have hge : ¬ (n % 128 + 128 < 0x80) := by omega
        simp only [hlen, if_false, hge]
        have := ih (n / 128) (shift + 7)
          (x ||| ((n % 128 + 128 &&& 0x7F) <<< shift) % 18446744073709551616) j
          (pre ++ [Fin.ofNat (n % 128 + 128)]) k hn2 hrest hshift' hj (by omega)
        simp only [List.append_assoc, List.singleton_append, List.length_append,
          List.length_singleton] at this
        exact this

theorem readString_truncated_varint (n j : Nat) (pre : List Byte) (hn : n < 2 ^ 64)
    (hj : j < (varint n).length) :
    readString (pre ++ (varint n).take j) pre.length = .error (.error .ErrUnexpectedEOF) := by
  have hv : n < 128 ^ (9 + 1) := lt_trans hn (by norm_num)
  have hj' : j < 10 := by
    have h10 := (varintBytes_length_le 9 n 10 hv (by omega)).2 hv
    have : (varint n).length = (varintBytes (9 + 1) n).length := rfl
    omega
  have hd := decodeVarint_truncated 9 n 0 0 j pre 11 hv (by norm_num; omega) (by omega) hj
    (by omega)
  unfold readString
  unfold varint
  rw [hd]

theorem readString_truncated_body (str pre : List Byte) (t : Nat) (ht : t < str.length)
    (hlen : pre.length + (varint str.length).length + str.length < 2 ^ 63) :
    readString (pre ++ varint str.length ++ str.take t) pre.length
      = .error (.error .ErrUnexpectedEOF) := by
  have h63 : (2 : Nat) ^ 63 = 9223372036854775808 := by norm_num
  have hl : str.length < 2 ^ 63 := by omega
  have hd := decodeVarint_varint str.length pre (str.take t) (by omega)
  have hp : wrapInt (((pre.length + (varint str.length).length : Nat) : Int)
      + (str.length : Int))
      = ((pre.length + (varint str.length).length + str.length : Nat) : Int) := by
    rw [wrapInt_of_range _ (by omega)]
    · push_cast; ring
    · have : (2 : Int) ^ 63 = 9223372036854775808 := by norm_num
      omega
  have hneg : ¬ ((str.length : Int) < 0) := by omega
  have hneg2 : ¬ (((pre.length + (varint str.length).length + str.length : Nat) : Int)
      < 0) := by omega
  have hgt : ((pre.length + (varint str.length).length + str.length : Nat) : Int)
      > ((pre ++ varint str.length ++ str.take t).length : Nat) := by
    simp only [List.length_append, List.length_take]
    omega
  unfold readString
  rw [hd]
  simp only
  rw [toInt64_of_lt _ hl, hp]
  simp only [hneg, hneg2, hgt, if_false, if_true]

/-- Every non-empty proper beginning of the encoding of a non-empty `Url` makes
the loop stop with `io.ErrUnexpectedEOF` in its first round. -/
theorem urlField_truncated (message : String) (m0 : UrlMessage) (url : List Byte) (j : Nat)
    (hne : url ≠ []) (hlen : (urlFieldEncoding url).length < 2 ^ 63)
    (hj0 : 0 < j) (hj : j < (urlFieldEncoding url).length) :
    UrlMessage.unmarshalLoop message ((urlFieldEncoding url).take j)
      (((urlFieldEncoding url).take j).length + 1) m0 0
      = (m0, some (.error .ErrUnexpectedEOF)) := by
  have henc : urlFieldEncoding url = (0x0a : Byte) :: (varint url.length ++ url) := by
    simp [urlFieldEncoding, hne]
  rw [henc] at hlen hj ⊢
  simp only [List.length_cons, List.length_append] at hlen hj
  obtain ⟨k, rfl⟩ : ∃ k, j = k + 1 := ⟨j - 1, by omega⟩
  rw [List.take_succ_cons, List.take_append_eq_append_take]
  have hstr : readString ([(0x0a : Byte)] ++ (List.take k (varint url.length)
      ++ List.take (k - (varint url.length).length) url)) 1
      = .error (.error .ErrUnexpectedEOF) := by
    by_cases hk : k < (varint url.length).length
    · have h0 : k - (varint url.length).length = 0 := by omega
      rw [h0, List.take_zero, List.append_nil]
      exact readString_truncated_varint url.length k [(0x0a : Byte)] (by omega) hk
    · have hfull : List.take k (varint url.length) = varint url.length :=
        List.take_of_length_le (by omega)
      rw [hfull, ← List.append_assoc]
      exact readString_truncated_body url [(0x0a : Byte)] _ (by omega)
        (by simp only [List.length_singleton]; omega)
  have htag := readTag_single message ([(0x0a : Byte)] ++ (List.take k (varint url.length)
      ++ List.take (k - (varint url.length).length) url)) 0 0x0a
    (by simp) (by decide) (by decide) (by decide)
  have h1 : (((0x0a : Byte).val / 8 : Nat) : Int) = 1 := by decide
  have h2 : (0x0a : Byte).val % 8 = 2 := by decide
  rw [show (0 : Nat) + 1 = 1 from rfl] at htag
  rw [UrlMessage.unmarshalLoop]
  simp only [List.singleton_append] at htag hstr
  simp only [List.length_cons, Nat.zero_lt_succ, if_true, htag, h1, h2, ne_eq,
    not_true_eq_false, if_false, hstr]

/-- C14: truncated messages are detected.  For a `RepoCredsQuery` with a
non-empty `Url` and no unrecognized bytes whose size fits in an `int`,
`Unmarshal` of every non-empty proper beginning of the bytes that `Marshal`
returns gives `io.ErrUnexpectedEOF`. -/
theorem truncated_message_is_unexpected_eof (m m0 : RepoCredsQuery) (dAtA : List Byte)
    (j : Nat) (hurl : m.Url ≠ []) (hno : m.XXX_unrecognized = []) (hsize : m.Size < 2 ^ 63)
    (hm : m.Marshal = .ok dAtA) (hj0 : 0 < j) (hj : j < dAtA.length) :
    RepoCredsQuery.Unmarshal m0 (dAtA.take j) = (m0, some (.error .ErrUnexpectedEOF)) := by
  have hlen64 : m.Url.length < 2 ^ 64 := by
    have := UrlMessage.length_le_Size m
    have : (2 : Nat) ^ 63 < 2 ^ 64 := by norm_num
    omega
  have hspec := UrlMessage.Marshal_eq_encoding m hlen64
  rw [hno, List.append_nil, hm] at hspec
  simp only [Except.ok.injEq] at hspec
  subst hspec
  have hlen : (urlFieldEncoding m.Url).length < 2 ^ 63 := by
    have := UrlMessage.Size_eq m hlen64
    rw [hno, List.append_nil] at this
    omega
  exact urlField_truncated "RepoCredsQuery" m0 m.Url j hurl hlen hj0 hj

/-! ### Witnesses for the claims about rejected input -/

/-- Witness for C11: field 1 sent as a varint to a `RepoCredsQuery` that holds a
`Url`, and field 2 sent as bytes to a `RepoCredsCreateRequest`. -/
theorem wrong_wire_type_rejected_witness :
    RepoCredsQuery.Unmarshal ⟨[104, 105], []⟩ [0x08, 0x01]
      = (⟨[104, 105], []⟩, some (.error (.wrongWireType 0 "Url")))
    ∧ (@RepoCredsCreateRequest.Unmarshal Unit
        ⟨(), fun _ => 0, fun _ b => .ok (b, 0), fun c _ => (c, none)⟩
        ⟨none, false, []⟩ [0x12, 0x00]).2 = some (.error (.wrongWireType 2 "Upsert")) :=
  ⟨(@wrong_wire_type_rejected Unit ⟨(), fun _ => 0, fun _ b => .ok (b, 0), fun c _ => (c, none)⟩
      [0x08, 0x01] 8 1 0 0 ⟨[104, 105], []⟩ ⟨none, false, []⟩).1
      rfl (by decide) (by decide),
   congrArg Prod.snd
    ((@wrong_wire_type_rejected Unit
      ⟨(), fun _ => 0, fun _ b => .ok (b, 0), fun c _ => (c, none)⟩
      [0x12, 0x00] 18 1 0 0 ⟨[], []⟩ ⟨none, false, []⟩).2.1
      rfl (by decide) (by decide))⟩

/-- Witness for C12: ten bytes 0x80 followed by 0x01. -/
theorem overlong_varint_is_overflow_witness :
    RepoCredsQuery.Unmarshal ⟨[], []⟩
        [0x80, 0x80, 0x80, 0x80, 0x80, 0x80, 0x80, 0x80, 0x80, 0x80, 0x01]
      = (⟨[], []⟩, some (.error .ErrIntOverflowRepocreds))
    ∧ RepoCredsResponse.Unmarshal ⟨[]⟩
        [0x80, 0x80, 0x80, 0x80, 0x80, 0x80, 0x80, 0x80, 0x80, 0x80, 0x01]
      = (⟨[]⟩, some (.error .ErrIntOverflowRepocreds)) :=
  have h := @overlong_varint_is_overflow Unit
    ⟨(), fun _ => 0, fun _ b => .ok (b, 0), fun c _ => (c, none)⟩
    [0x80, 0x80, 0x80, 0x80, 0x80, 0x80, 0x80, 0x80, 0x80, 0x80, 0x01]
    ⟨[], []⟩ ⟨[], []⟩ ⟨[]⟩ ⟨none, false, []⟩ ⟨none, []⟩ (by decide)
    (by
      intro k b hk hb
      interval_cases k <;> simp at hb <;> subst hb <;> decide)
  ⟨h.1, h.2.2.1⟩

/-- Witness for C14: the first three of the four bytes that encode the `Url`
"hi". -/
theorem truncated_message_is_unexpected_eof_witness :
    UrlMessage.Marshal ⟨[104, 105], []⟩ = .ok [0x0a, 0x02, 104, 105]
    ∧ RepoCredsQuery.Unmarshal ⟨[], []⟩ [0x0a, 0x02, 104]
      = (⟨[], []⟩, some (.error .ErrUnexpectedEOF)) :=
  ⟨rfl,
   truncated_message_is_unexpected_eof ⟨[104, 105], []⟩ ⟨[], []⟩ [0x0a, 0x02, 104, 105] 3
     (by decide) rfl (by decide) rfl (by decide) (by decide)⟩

end ArgoCD
